import Mathlib

/-!
Shallow embedding of the `wm_state` core of the `lazywm` tiling window
manager (files `src/wm_state/container.rs`, `src/wm_state/workspace.rs`,
`src/wm_state/mod.rs`), together with proofs checking the natural-language
specification against it.

Modelling conventions:
* Rust `u32` values (window ids, coordinates, sizes) are modelled as `Nat`;
  the layout arithmetic (`/` on `u32`) is `Nat` division, and no claim under
  study depends on wrap-around at `2^32`.
* The raw `*mut Container` parent/focus pointers are modelled as index paths
  from the root of the tree (a `List Nat` of child positions); the source's
  own design notes describe these pointers as morally stable indices.
* `HashMap<usize, Workspace>` is modelled as an association list, and the
  `unwrap()` calls on its lookups are modelled by `Option`-returning
  operations (`none` = the Rust code panics).
-/

namespace LazyWm

/-- `LayoutType` from `container.rs`. -/
inductive LayoutType where
  | Horizontal
  | Vertical
  | Floating
  | Tabbed
deriving Repr, DecidableEq

/-- `Geometry` from `container.rs`: a rectangle in screen coordinates. -/
structure Geometry where
  x : Nat
  y : Nat
  width : Nat
  height : Nat
deriving Repr, DecidableEq

/-- `Geometry::new`. -/
def Geometry.new (x y width height : Nat) : Geometry :=
  ⟨x, y, width, height⟩

/-- `LayoutType::get_next_geometry` from `container.rs` lines 17-45. -/
def LayoutType.get_next_geometry (l : LayoutType) (current_geometry unit : Geometry) :
    Geometry :=
  match l with
  | .Horizontal =>
      { x := current_geometry.x + unit.x
        y := current_geometry.y
        width := unit.width
        height := current_geometry.height }
  | .Vertical =>
      { x := current_geometry.x
        y := current_geometry.y + unit.y
        width := current_geometry.width
        height := unit.height }
  | .Floating =>
      { x := current_geometry.x
        y := current_geometry.y
        width := current_geometry.width
        height := current_geometry.height }
  | .Tabbed =>
      { x := current_geometry.x
        y := current_geometry.y
        width := current_geometry.width
        height := current_geometry.height }

/-- `Container` from `container.rs`.  The `parent` back-pointer is not a field
here: parenthood is the tree structure itself, and the places the source
dereferences `parent` are modelled with index paths. -/
inductive Container where
  | mk (frame_win_id : Option Nat) (main_win_id : Option Nat)
      (children : List Container) (layout_type : LayoutType) (geometry : Geometry)
      (is_repositioned : Bool) (remove_flag : Bool) : Container
deriving Repr

def Container.frame_win_id : Container → Option Nat
  | .mk f _ _ _ _ _ _ => f

def Container.main_win_id : Container → Option Nat
  | .mk _ m _ _ _ _ _ => m

def Container.children : Container → List Container
  | .mk _ _ cs _ _ _ _ => cs

def Container.layout_type : Container → LayoutType
  | .mk _ _ _ lt _ _ _ => lt

def Container.geometry : Container → Geometry
  | .mk _ _ _ _ g _ _ => g

def Container.is_repositioned : Container → Bool
  | .mk _ _ _ _ _ rep _ => rep

def Container.remove_flag : Container → Bool
  | .mk _ _ _ _ _ _ rem => rem

/-- Field update: `children`. -/
def Container.setChildren : Container → List Container → Container
  | .mk f m _ lt g rep rem, cs => .mk f m cs lt g rep rem

/-- Field update: `geometry` (models `c.geometry = ...`). -/
def Container.setGeometry : Container → Geometry → Container
  | .mk f m cs lt _ rep rem, g => .mk f m cs lt g rep rem

/-- Field update: `is_repositioned = true`. -/
def Container.setRepositioned : Container → Container
  | .mk f m cs lt g _ rem => .mk f m cs lt g true rem

/-- `Container::mark_removed` (`remove_flag = true`). -/
def Container.mark_removed : Container → Container
  | .mk f m cs lt g rep _ => .mk f m cs lt g rep true

/-- `Container::unmark_removed` (`remove_flag = false`). -/
def Container.unmark_removed : Container → Container
  | .mk f m cs lt g rep _ => .mk f m cs lt g rep false

/-- Number of tree nodes; termination measure for the recursive operations
(the source recursions are bounded by the tree shape, which numeric field
updates do not change). -/
def Container.csize : Container → Nat
  | .mk _ _ cs _ _ _ _ => 1 + csizeList cs
where csizeList : List Container → Nat
  | [] => 0
  | c :: rest => 1 + Container.csize c + csizeList rest

@[simp] theorem csize_mk (f m : Option Nat) (cs : List Container) (lt : LayoutType)
    (g : Geometry) (rep rem : Bool) :
    (Container.mk f m cs lt g rep rem).csize = 1 + Container.csize.csizeList cs := rfl

@[simp] theorem csizeList_nil : Container.csize.csizeList [] = 0 := rfl

@[simp] theorem csizeList_cons (c : Container) (cs : List Container) :
    Container.csize.csizeList (c :: cs) = 1 + c.csize + Container.csize.csizeList cs := rfl

@[simp] theorem frame_win_id_mk (f m : Option Nat) (cs : List Container) (lt : LayoutType)
    (g : Geometry) (rep rem : Bool) :
    (Container.mk f m cs lt g rep rem).frame_win_id = f := rfl

@[simp] theorem main_win_id_mk (f m : Option Nat) (cs : List Container) (lt : LayoutType)
    (g : Geometry) (rep rem : Bool) :
    (Container.mk f m cs lt g rep rem).main_win_id = m := rfl

@[simp] theorem children_mk (f m : Option Nat) (cs : List Container) (lt : LayoutType)
    (g : Geometry) (rep rem : Bool) :
    (Container.mk f m cs lt g rep rem).children = cs := rfl

@[simp] theorem layout_type_mk (f m : Option Nat) (cs : List Container) (lt : LayoutType)
    (g : Geometry) (rep rem : Bool) :
    (Container.mk f m cs lt g rep rem).layout_type = lt := rfl

@[simp] theorem geometry_mk (f m : Option Nat) (cs : List Container) (lt : LayoutType)
    (g : Geometry) (rep rem : Bool) :
    (Container.mk f m cs lt g rep rem).geometry = g := rfl

@[simp] theorem is_repositioned_mk (f m : Option Nat) (cs : List Container) (lt : LayoutType)
    (g : Geometry) (rep rem : Bool) :
    (Container.mk f m cs lt g rep rem).is_repositioned = rep := rfl

@[simp] theorem remove_flag_mk (f m : Option Nat) (cs : List Container) (lt : LayoutType)
    (g : Geometry) (rep rem : Bool) :
    (Container.mk f m cs lt g rep rem).remove_flag = rem := rfl

@[simp] theorem setChildren_mk (f m : Option Nat) (cs cs2 : List Container) (lt : LayoutType)
    (g : Geometry) (rep rem : Bool) :
    (Container.mk f m cs lt g rep rem).setChildren cs2 = .mk f m cs2 lt g rep rem := rfl

@[simp] theorem setGeometry_mk (f m : Option Nat) (cs : List Container) (lt : LayoutType)
    (g g2 : Geometry) (rep rem : Bool) :
    (Container.mk f m cs lt g rep rem).setGeometry g2 = .mk f m cs lt g2 rep rem := rfl

@[simp] theorem setRepositioned_mk (f m : Option Nat) (cs : List Container) (lt : LayoutType)
    (g : Geometry) (rep rem : Bool) :
    (Container.mk f m cs lt g rep rem).setRepositioned = .mk f m cs lt g true rem := rfl

@[simp] theorem mark_removed_mk (f m : Option Nat) (cs : List Container) (lt : LayoutType)
    (g : Geometry) (rep rem : Bool) :
    (Container.mk f m cs lt g rep rem).mark_removed = .mk f m cs lt g rep true := rfl

@[simp] theorem unmark_removed_mk (f m : Option Nat) (cs : List Container) (lt : LayoutType)
    (g : Geometry) (rep rem : Bool) :
    (Container.mk f m cs lt g rep rem).unmark_removed = .mk f m cs lt g rep false := rfl

theorem csizeList_children_lt (c : Container) :
    Container.csize.csizeList c.children < c.csize := by
  cases c with
  | mk f m cs lt g rep rem => simp

theorem csize_pos (c : Container) : 0 < c.csize := by
  cases c with
  | mk f m cs lt g rep rem => simp

@[simp] theorem csize_setGeometry (c : Container) (g : Geometry) :
    (c.setGeometry g).csize = c.csize := by
  cases c; rfl

@[simp] theorem csize_setRepositioned (c : Container) :
    c.setRepositioned.csize = c.csize := by
  cases c; rfl

@[simp] theorem children_setGeometry (c : Container) (g : Geometry) :
    (c.setGeometry g).children = c.children := by
  cases c; rfl

theorem csizeList_filter_le (p : Container → Bool) (l : List Container) :
    Container.csize.csizeList (l.filter p) ≤ Container.csize.csizeList l := by
  induction l with
  | nil => simp
  | cons c cs ih =>
      by_cases h : p c
      · simp [List.filter_cons, h]
        omega
      · simp [List.filter_cons, h]
        have := csize_pos c
        omega

mutual

/-- `Container::reposition` from `container.rs` lines 275-313.  Recomputes the
geometries of the live (`!remove_flag`) children, recursing into each child
right after assigning its geometry, and marks each live child
`is_repositioned`; pending-removal children are left untouched. -/
def Container.reposition (c : Container) : Container :=
  let live_children_count := (c.children.filter (fun x => !x.remove_flag)).length
  if live_children_count = 0 then c
  else
    let child_width := c.geometry.width / live_children_count
    let child_height := c.geometry.height / live_children_count
    let next_geometry : Geometry :=
      { x := 0, y := 0, width := child_width, height := c.geometry.height }
    let unit : Geometry :=
      { x := child_width, y := child_height, width := child_width, height := child_height }
    c.setChildren (repositionEach c.layout_type next_geometry unit c.children)
termination_by 2 * c.csize + 1
decreasing_by
  have := csizeList_children_lt c
  omega

/-- The `for_each` loop inside `Container::reposition`: walks the children,
skipping pending-removal ones; for each live child assigns `next_geometry`,
recurses, marks it repositioned, and advances `next_geometry` by
`layout_type.get_next_geometry`. -/
def repositionEach (lt : LayoutType) (next_geometry unit : Geometry) :
    List Container → List Container
  | [] => []
  | c :: rest =>
      if c.remove_flag then c :: repositionEach lt next_geometry unit rest
      else
        ((c.setGeometry next_geometry).reposition).setRepositioned ::
          repositionEach lt (lt.get_next_geometry next_geometry unit) unit rest
termination_by l => 2 * Container.csize.csizeList l
decreasing_by
  all_goals simp
  all_goals omega

end

/-- `Container::new_without_window`. -/
def Container.new_without_window (layout_type : LayoutType) (geometry : Geometry) :
    Container :=
  .mk none none [] layout_type geometry false false

/-- `Container::new`. -/
def Container.new (frame_win_id main_win_id : Nat) (layout_type : LayoutType)
    (geometry : Geometry) : Container :=
  .mk (some frame_win_id) (some main_win_id) [] layout_type geometry false false

/-- `Container::add_child`: push the child, then `reposition` the node.  The
Rust function also sets the child's parent back-pointer (implicit here) and
returns a reference to the pushed child, which sits at index
`c.children.length` of the result. -/
def Container.add_child (c : Container) (child : Container) : Container :=
  (c.setChildren (c.children ++ [child])).reposition

/-- `Container::get_next_focusing_container` from `container.rs` lines
140-152.  The Rust function returns `Some(&self.children[index])`; since the
caller (`Workspace::remove_container`) turns that reference into the new
focus pointer, we model the result as the child's index. -/
def Container.get_next_focusing_container (c : Container) (window_id : Nat) :
    Option Nat :=
  match c.children.findIdx? (fun x => x.main_win_id == some window_id) with
  | none => none
  | some window_index =>
      if c.children.length = 1 then none
      else some ((window_index + 1) % c.children.length)

mutual

/-- `Container::clean_removed_children` from `container.rs` lines 154-164:
if the node itself is marked removed, do nothing; otherwise retain only the
non-removed children and recurse into each of them. -/
def Container.clean_removed_children (c : Container) : Container :=
  if c.remove_flag then c
  else c.setChildren (cleanEach (c.children.filter (fun x => !x.remove_flag)))
termination_by 2 * c.csize + 1
decreasing_by
  have h1 := csizeList_filter_le (fun x => !x.remove_flag) c.children
  have h2 := csizeList_children_lt c
  omega

/-- The recursive loop of `Container::clean_removed_children`. -/
def cleanEach : List Container → List Container
  | [] => []
  | c :: rest => c.clean_removed_children :: cleanEach rest
termination_by l => 2 * Container.csize.csizeList l
decreasing_by
  all_goals simp
  all_goals omega

end

mutual

/-- `Container::get_repositioned_children` from `container.rs` lines 184-196:
among the children marked `is_repositioned`, leaves are returned themselves
and interior nodes are expanded recursively. -/
def Container.get_repositioned_children (c : Container) : List Container :=
  flatRepositioned (c.children.filter (fun x => x.is_repositioned))
termination_by 2 * c.csize + 1
decreasing_by
  have h1 := csizeList_filter_le (fun x => x.is_repositioned) c.children
  have h2 := csizeList_children_lt c
  omega

/-- The `flat_map` loop of `Container::get_repositioned_children`. -/
def flatRepositioned : List Container → List Container
  | [] => []
  | c :: rest =>
      (if c.children.isEmpty then [c] else c.get_repositioned_children) ++
        flatRepositioned rest
termination_by l => 2 * Container.csize.csizeList l
decreasing_by
  all_goals simp
  all_goals omega

end

mutual

/-- `Container::get_removed_children` from `container.rs` lines 198-209: the
children are first filtered by `remove_flag`, then flat-mapped; since every
element surviving the filter has `remove_flag` set, the recursive branch of
the Rust `flat_map` is dead code and each filtered child is returned
directly. -/
def Container.get_removed_children (c : Container) : List Container :=
  flatRemoved (c.children.filter (fun x => x.remove_flag))
termination_by 2 * c.csize + 1
decreasing_by
  have h1 := csizeList_filter_le (fun x => x.remove_flag) c.children
  have h2 := csizeList_children_lt c
  omega

/-- The `flat_map` loop of `Container::get_removed_children`. -/
def flatRemoved : List Container → List Container
  | [] => []
  | c :: rest =>
      (if c.remove_flag then [c] else c.get_removed_children) ++ flatRemoved rest
termination_by l => 2 * Container.csize.csizeList l
decreasing_by
  all_goals simp
  all_goals omega

end

/-- Models `self.children[index].remove_flag = true`. -/
def markRemovedAt : List Container → Nat → List Container
  | [], _ => []
  | c :: rest, 0 => c.mark_removed :: rest
  | c :: rest, n + 1 => c :: markRemovedAt rest n

/-- `Container::remove_window` from `container.rs` lines 211-227 (the spec's
`mark_window_removed`): find the direct child holding `window_id`; if none,
return unchanged.  Otherwise flag that child; if it was the only child, flag
the node itself and stop, else `reposition` the node. -/
def Container.remove_window (c : Container) (window_id : Nat) : Container :=
  match c.children.findIdx? (fun x => x.main_win_id == some window_id) with
  | none => c
  | some index =>
      let flagged := c.setChildren (markRemovedAt c.children index)
      if c.children.length - 1 = 0 then flagged.mark_removed
      else flagged.reposition

mutual

/-- `Container::find_child_by_window_id` from `container.rs` lines 229-244. -/
def Container.find_child_by_window_id (c : Container) (window_id : Nat) :
    Option Container :=
  if c.main_win_id == some window_id then some c
  else findEach c.children window_id
termination_by 2 * c.csize + 1
decreasing_by
  have h2 := csizeList_children_lt c
  omega

/-- The search loop of `Container::find_child_by_window_id`: returns the first
recursive match whose `main_win_id` is the searched id. -/
def findEach : List Container → Nat → Option Container
  | [], _ => none
  | child :: rest, window_id =>
      match child.find_child_by_window_id window_id with
      | some found =>
          if found.main_win_id == some window_id then some found
          else findEach rest window_id
      | none => findEach rest window_id
termination_by l => 2 * Container.csize.csizeList l
decreasing_by
  all_goals simp
  all_goals omega

end

/-! ### Paths

The Rust code keeps raw `*mut Container` pointers into the tree (the parent
back-pointer and the workspace focus pointer).  We model a pointer as the
index path from the root: `[]` is the root itself, `i :: p` is path `p`
inside the `i`-th child. -/

/-- Dereference a path. -/
def Container.resolve : Container → List Nat → Option Container
  | c, [] => some c
  | c, i :: rest =>
      match c.children[i]? with
      | some child => child.resolve rest
      | none => none

/-- Mutate the node a path points at (models a write through a `*mut
Container`); identity when the path is dangling. -/
def Container.modifyAt (c : Container) (p : List Nat) (f : Container → Container) :
    Container :=
  match p with
  | [] => f c
  | i :: rest =>
      match c.children[i]? with
      | none => c
      | some child => c.setChildren (c.children.set i (child.modifyAt rest f))

mutual

/-- Number of nodes of the tree whose `main_win_id` is `some h`; used to state
"the handle `h` is (not) present in the tree". -/
def Container.winCount (c : Container) (h : Nat) : Nat :=
  (if c.main_win_id == some h then 1 else 0) + winCountList c.children h
termination_by 2 * c.csize + 1
decreasing_by
  have h2 := csizeList_children_lt c
  omega

def winCountList : List Container → Nat → Nat
  | [], _ => 0
  | c :: rest, h => c.winCount h + winCountList rest h
termination_by l => 2 * Container.csize.csizeList l
decreasing_by
  all_goals simp
  all_goals omega

end

mutual

/-- `Workspace::find_parent_container` from `workspace.rs` lines 75-98, with
the result pointer expressed as a path from `root`: `some []` means the
predicate matched a direct child of `root` (the Rust code returns `root`
itself), and `some [i]` means the recursive search succeeded somewhere inside
child `i` (the Rust code then returns `&mut root[i]` — the top-level child,
not the true parent, even when the match is deeper). -/
def find_parent_container (pred : Container → Bool) (root : Container) :
    Option (List Nat) :=
  findParentLoop pred root.children 0
termination_by 2 * root.csize + 1
decreasing_by
  have h2 := csizeList_children_lt root
  omega

/-- The indexed loop inside `Workspace::find_parent_container`: stops at the
first child that either matches the predicate (`Ok(None)` in the source) or
contains a match (`Ok(Some(i))`). -/
def findParentLoop (pred : Container → Bool) :
    List Container → Nat → Option (List Nat)
  | [], _ => none
  | child :: rest, i =>
      if pred child then some []
      else
        match find_parent_container pred child with
        | some _ => some [i]
        | none => findParentLoop pred rest (i + 1)
termination_by l => 2 * Container.csize.csizeList l
decreasing_by
  all_goals simp
  all_goals omega

end

/-- `Workspace` from `workspace.rs`.  The `display_stack` field is never used
by the operations under study and is omitted; the raw
`current_focused_container` pointer is modelled as a path into `container`. -/
structure Workspace where
  current_focused_container : List Nat
  container : Container

/-- `Workspace::new`: a root container with `Horizontal` layout at
`(0, 0, width, height)`; the focus pointer starts at the root. -/
def Workspace.new (width height : Nat) : Workspace :=
  { container :=
      Container.new_without_window .Horizontal (Geometry.new 0 0 width height)
    current_focused_container := [] }

/-- `Workspace::reposition`. -/
def Workspace.reposition (ws : Workspace) : Workspace :=
  { ws with container := ws.container.reposition }

/-- `Workspace::remove_container` from `workspace.rs` lines 40-61: locate the
parent of the container holding `window_id`; if found, move the focus to the
cyclic-successor sibling if any, else to the parent's parent if the parent is
itself a child, else to the root; then call `remove_window` on the parent. -/
def Workspace.remove_container (ws : Workspace) (window_id : Nat) : Workspace :=
  match find_parent_container (fun c => c.main_win_id == some window_id)
      ws.container with
  | none => ws
  | some pp =>
      match ws.container.resolve pp with
      | none => ws
      | some parent =>
          let focus :=
            match parent.get_next_focusing_container window_id with
            | some idx => pp ++ [idx]
            | none => if pp.isEmpty then [] else pp.dropLast
          { current_focused_container := focus
            container := ws.container.modifyAt pp (fun p => p.remove_window window_id) }

/-- `Workspace::clean_removed_containers` from `workspace.rs` lines 70-73:
unmark the root, then drop the marked subtrees. -/
def Workspace.clean_removed_containers (ws : Workspace) : Workspace :=
  { ws with container := ws.container.unmark_removed.clean_removed_children }

/-- `Workspace::add_container` from `workspace.rs` lines 100-115: the
insertion parent is the focused container's parent when the focus is a child,
else the root; the new container is pushed there (`Container::add_child`,
which repositions the parent) and the focus moves to it.  The pushed child
sits at the old end of the parent's child list. -/
def Workspace.add_container (ws : Workspace) (new_container : Container) :
    Workspace :=
  let parentPath :=
    if ws.current_focused_container.isEmpty then []
    else ws.current_focused_container.dropLast
  let parentLen :=
    match ws.container.resolve parentPath with
    | some parent => parent.children.length
    | none => 0
  { current_focused_container := parentPath ++ [parentLen]
    container := ws.container.modifyAt parentPath (fun p => p.add_child new_container) }

/-- `Workspace::set_current_focused_container` from `workspace.rs` lines
117-129: no-op when the handle is absent, otherwise focus the first direct
child of the found parent that holds `window_id`. -/
def Workspace.set_current_focused_container (ws : Workspace) (window_id : Nat) :
    Workspace :=
  match find_parent_container (fun c => c.main_win_id == some window_id)
      ws.container with
  | none => ws
  | some pp =>
      match ws.container.resolve pp with
      | none => ws
      | some parent =>
          match parent.children.findIdx? (fun c => c.main_win_id == some window_id) with
          | none => ws
          | some idx => { ws with current_focused_container := pp ++ [idx] }

/-- `Workspace::get_repositioned_children` (the spec's
`collect_repositioned_leaves`). -/
def Workspace.get_repositioned_children (ws : Workspace) : List Container :=
  ws.container.get_repositioned_children

/-- `Workspace::get_removed_children` (the spec's `collect_removed`). -/
def Workspace.get_removed_children (ws : Workspace) : List Container :=
  ws.container.get_removed_children

/-! ### WmState (`mod.rs`)

`HashMap<usize, Workspace>` is modelled as an association list; the
`unwrap()` on `workspaces.get(&current_workspace)` is modelled by `Option`
results (`none` = the Rust code panics). -/

/-- `HashMap::get`. -/
def lookupWs : List (Nat × Workspace) → Nat → Option Workspace
  | [], _ => none
  | (k, w) :: rest, i => if k = i then some w else lookupWs rest i

/-- In-place update of the workspace stored under a key (models
`HashMap::get_mut` followed by mutation). -/
def updateWs (f : Workspace → Workspace) :
    List (Nat × Workspace) → Nat → List (Nat × Workspace)
  | [], _ => []
  | (k, w) :: rest, i =>
      if k = i then (k, f w) :: rest else (k, w) :: updateWs f rest i

/-- `WmState` from `mod.rs`. -/
structure WmState where
  current_workspace : Nat
  num_workspaces : Nat
  workspaces : List (Nat × Workspace)

/-- `WmState::new`: workspaces `0 .. num_workspaces - 1`, current index 0. -/
def WmState.new (num_workspaces width height : Nat) : WmState :=
  { current_workspace := 0
    num_workspaces := num_workspaces
    workspaces := (List.range num_workspaces).map (fun i => (i, Workspace.new width height)) }

/-- `WmState::get_current_workspace` (`none` models the `unwrap()` panic on a
missing entry). -/
def WmState.get_current_workspace (wm : WmState) : Option Workspace :=
  lookupWs wm.workspaces wm.current_workspace

/-- Shared shape of the delegated operations: look up the current workspace
(`unwrap()`), then mutate it in place. -/
def WmState.modifyCurrent (wm : WmState) (f : Workspace → Workspace) :
    Option WmState :=
  match lookupWs wm.workspaces wm.current_workspace with
  | none => none
  | some _ =>
      some { wm with workspaces := updateWs f wm.workspaces wm.current_workspace }

/-- `WmState::new_container` from `mod.rs` lines 35-45: build a leaf container
(`frame_win_id`, `client_win_id`, `Horizontal`, zero geometry) and add it to
the current workspace. -/
def WmState.new_container (wm : WmState) (client_win_id frame_win_id : Nat) :
    Option WmState :=
  wm.modifyCurrent (fun ws =>
    ws.add_container
      (Container.new frame_win_id client_win_id .Horizontal (Geometry.new 0 0 0 0)))

/-- `WmState::remove_container`. -/
def WmState.remove_container (wm : WmState) (window_id : Nat) : Option WmState :=
  wm.modifyCurrent (fun ws => ws.remove_container window_id)

/-- `WmState::reposition`. -/
def WmState.reposition (wm : WmState) : Option WmState :=
  wm.modifyCurrent Workspace.reposition

/-- `WmState::clean_removed_containers`. -/
def WmState.clean_removed_containers (wm : WmState) : Option WmState :=
  wm.modifyCurrent Workspace.clean_removed_containers

/-- `WmState::set_focusing_container`. -/
def WmState.set_focusing_container (wm : WmState) (window_id : Nat) :
    Option WmState :=
  wm.modifyCurrent (fun ws => ws.set_current_focused_container window_id)

/-- `WmState::change_workspace` from `mod.rs` lines 83-85: sets the index,
with no bounds check and no other change. -/
def WmState.change_workspace (wm : WmState) (workspace : Nat) : WmState :=
  { wm with current_workspace := workspace }

/-! ### Basic field lemmas -/

@[simp] theorem children_setChildren (c : Container) (cs : List Container) :
    (c.setChildren cs).children = cs := by cases c; rfl

@[simp] theorem geometry_setChildren (c : Container) (cs : List Container) :
    (c.setChildren cs).geometry = c.geometry := by cases c; rfl

@[simp] theorem remove_flag_setChildren (c : Container) (cs : List Container) :
    (c.setChildren cs).remove_flag = c.remove_flag := by cases c; rfl

@[simp] theorem is_repositioned_setChildren (c : Container) (cs : List Container) :
    (c.setChildren cs).is_repositioned = c.is_repositioned := by cases c; rfl

@[simp] theorem main_win_id_setChildren (c : Container) (cs : List Container) :
    (c.setChildren cs).main_win_id = c.main_win_id := by cases c; rfl

@[simp] theorem frame_win_id_setChildren (c : Container) (cs : List Container) :
    (c.setChildren cs).frame_win_id = c.frame_win_id := by cases c; rfl

@[simp] theorem layout_type_setChildren (c : Container) (cs : List Container) :
    (c.setChildren cs).layout_type = c.layout_type := by cases c; rfl

@[simp] theorem geometry_setGeometry (c : Container) (g : Geometry) :
    (c.setGeometry g).geometry = g := by cases c; rfl

@[simp] theorem remove_flag_setGeometry (c : Container) (g : Geometry) :
    (c.setGeometry g).remove_flag = c.remove_flag := by cases c; rfl

@[simp] theorem is_repositioned_setGeometry (c : Container) (g : Geometry) :
    (c.setGeometry g).is_repositioned = c.is_repositioned := by cases c; rfl

@[simp] theorem main_win_id_setGeometry (c : Container) (g : Geometry) :
    (c.setGeometry g).main_win_id = c.main_win_id := by cases c; rfl

@[simp] theorem frame_win_id_setGeometry (c : Container) (g : Geometry) :
    (c.setGeometry g).frame_win_id = c.frame_win_id := by cases c; rfl

@[simp] theorem layout_type_setGeometry (c : Container) (g : Geometry) :
    (c.setGeometry g).layout_type = c.layout_type := by cases c; rfl

@[simp] theorem children_setRepositioned (c : Container) :
    c.setRepositioned.children = c.children := by cases c; rfl

@[simp] theorem geometry_setRepositioned (c : Container) :
    c.setRepositioned.geometry = c.geometry := by cases c; rfl

@[simp] theorem remove_flag_setRepositioned (c : Container) :
    c.setRepositioned.remove_flag = c.remove_flag := by cases c; rfl

@[simp] theorem is_repositioned_setRepositioned (c : Container) :
    c.setRepositioned.is_repositioned = true := by cases c; rfl

@[simp] theorem main_win_id_setRepositioned (c : Container) :
    c.setRepositioned.main_win_id = c.main_win_id := by cases c; rfl

@[simp] theorem frame_win_id_setRepositioned (c : Container) :
    c.setRepositioned.frame_win_id = c.frame_win_id := by cases c; rfl

@[simp] theorem layout_type_setRepositioned (c : Container) :
    c.setRepositioned.layout_type = c.layout_type := by cases c; rfl

@[simp] theorem children_mark_removed (c : Container) :
    c.mark_removed.children = c.children := by cases c; rfl

@[simp] theorem geometry_mark_removed (c : Container) :
    c.mark_removed.geometry = c.geometry := by cases c; rfl

@[simp] theorem remove_flag_mark_removed (c : Container) :
    c.mark_removed.remove_flag = true := by cases c; rfl

@[simp] theorem is_repositioned_mark_removed (c : Container) :
    c.mark_removed.is_repositioned = c.is_repositioned := by cases c; rfl

@[simp] theorem main_win_id_mark_removed (c : Container) :
    c.mark_removed.main_win_id = c.main_win_id := by cases c; rfl

@[simp] theorem frame_win_id_mark_removed (c : Container) :
    c.mark_removed.frame_win_id = c.frame_win_id := by cases c; rfl

@[simp] theorem layout_type_mark_removed (c : Container) :
    c.mark_removed.layout_type = c.layout_type := by cases c; rfl

@[simp] theorem children_unmark_removed (c : Container) :
    c.unmark_removed.children = c.children := by cases c; rfl

@[simp] theorem geometry_unmark_removed (c : Container) :
    c.unmark_removed.geometry = c.geometry := by cases c; rfl

@[simp] theorem remove_flag_unmark_removed (c : Container) :
    c.unmark_removed.remove_flag = false := by cases c; rfl

@[simp] theorem is_repositioned_unmark_removed (c : Container) :
    c.unmark_removed.is_repositioned = c.is_repositioned := by cases c; rfl

@[simp] theorem main_win_id_unmark_removed (c : Container) :
    c.unmark_removed.main_win_id = c.main_win_id := by cases c; rfl

@[simp] theorem frame_win_id_unmark_removed (c : Container) :
    c.unmark_removed.frame_win_id = c.frame_win_id := by cases c; rfl

@[simp] theorem layout_type_unmark_removed (c : Container) :
    c.unmark_removed.layout_type = c.layout_type := by cases c; rfl

/-! ### Preservation lemmas for `reposition` -/

theorem reposition_geometry (c : Container) : c.reposition.geometry = c.geometry := by
  rw [Container.reposition]
  split
  · rfl
  · simp

theorem reposition_remove_flag (c : Container) :
    c.reposition.remove_flag = c.remove_flag := by
  rw [Container.reposition]
  split
  · rfl
  · simp

theorem reposition_is_repositioned (c : Container) :
    c.reposition.is_repositioned = c.is_repositioned := by
  rw [Container.reposition]
  split
  · rfl
  · simp

theorem reposition_main_win_id (c : Container) :
    c.reposition.main_win_id = c.main_win_id := by
  rw [Container.reposition]
  split
  · rfl
  · simp

theorem reposition_frame_win_id (c : Container) :
    c.reposition.frame_win_id = c.frame_win_id := by
  rw [Container.reposition]
  split
  · rfl
  · simp

theorem reposition_layout_type (c : Container) :
    c.reposition.layout_type = c.layout_type := by
  rw [Container.reposition]
  split
  · rfl
  · simp

theorem repositionEach_map_remove_flag (lt : LayoutType) (g u : Geometry)
    (l : List Container) :
    (repositionEach lt g u l).map Container.remove_flag
      = l.map Container.remove_flag := by
  induction l generalizing g with
  | nil => simp [repositionEach]
  | cons c rest ih =>
      by_cases hc : c.remove_flag
      · simp [repositionEach, hc, ih]
      · simp [repositionEach, hc, ih, reposition_remove_flag]

theorem repositionEach_map_main_win_id (lt : LayoutType) (g u : Geometry)
    (l : List Container) :
    (repositionEach lt g u l).map Container.main_win_id
      = l.map Container.main_win_id := by
  induction l generalizing g with
  | nil => simp [repositionEach]
  | cons c rest ih =>
      by_cases hc : c.remove_flag
      · simp [repositionEach, hc, ih]
      · simp [repositionEach, hc, ih, reposition_main_win_id]

theorem repositionEach_length (lt : LayoutType) (g u : Geometry)
    (l : List Container) :
    (repositionEach lt g u l).length = l.length := by
  have h := congrArg List.length (repositionEach_map_remove_flag lt g u l)
  simpa using h

theorem reposition_children_map_remove_flag (c : Container) :
    c.reposition.children.map Container.remove_flag
      = c.children.map Container.remove_flag := by
  rw [Container.reposition]
  split
  · rfl
  · simp [repositionEach_map_remove_flag]

theorem reposition_children_map_main_win_id (c : Container) :
    c.reposition.children.map Container.main_win_id
      = c.children.map Container.main_win_id := by
  rw [Container.reposition]
  split
  · rfl
  · simp [repositionEach_map_main_win_id]

theorem reposition_children_length (c : Container) :
    c.reposition.children.length = c.children.length := by
  have h := congrArg List.length (reposition_children_map_remove_flag c)
  simpa using h

/-! ### The geometry sequence produced by a `Horizontal` reposition pass -/

theorem repositionEach_horizontal_geoms (u : Geometry) (l : List Container)
    (g : Geometry) (hw : g.width = u.width) :
    ((repositionEach .Horizontal g u l).filter (fun x => !x.remove_flag)).map
        Container.geometry
      = (List.range ((l.filter (fun x => !x.remove_flag)).length)).map
          (fun k => Geometry.mk (g.x + k * u.x) g.y u.width g.height) := by
  induction l generalizing g with
  | nil => simp [repositionEach]
  | cons c rest ih =>
      by_cases hc : c.remove_flag
      · simp only [repositionEach, hc, if_pos, List.filter_cons]
        simp only [hc, Bool.not_true, Bool.false_eq_true, if_false]
        exact ih g hw
      · simp only [repositionEach, hc, if_neg, Bool.false_eq_true, not_false_iff,
          List.filter_cons]
        have hflag : (((c.setGeometry g).reposition).setRepositioned).remove_flag = false := by
          simp [reposition_remove_flag, hc]
        have hgeom : (((c.setGeometry g).reposition).setRepositioned).geometry = g := by
          simp [reposition_geometry]
        have hstep : (LayoutType.Horizontal.get_next_geometry g u).width = u.width := rfl
        have ihg := ih (LayoutType.Horizontal.get_next_geometry g u) hstep
        simp only [hflag, hc, Bool.not_false, if_pos, List.map_cons, List.length_cons,
          hgeom, ihg]
        rw [List.range_succ_eq_map]
        simp only [List.map_cons, List.map_map]
        congr 1
        · cases g with
          | mk gx gy gwidth gheight => simp at hw; simp [hw]
        · apply List.map_congr_left
          intro k _
          simp only [Function.comp, LayoutType.get_next_geometry, Nat.succ_eq_add_one]
          congr 1
          ring

/-- The children list computed by a `Horizontal` reposition pass with `n ≥ 1`
live children. -/
theorem reposition_children_horizontal (c : Container) (n : Nat)
    (hlt : c.layout_type = .Horizontal)
    (hn : n = (c.children.filter (fun x => !x.remove_flag)).length)
    (hpos : 1 ≤ n) :
    (c.reposition.children.filter (fun x => !x.remove_flag)).map Container.geometry
      = (List.range n).map
          (fun k =>
            Geometry.mk (k * (c.geometry.width / n)) 0 (c.geometry.width / n)
              c.geometry.height) := by
  have hne : ¬ ((c.children.filter (fun x => !x.remove_flag)).length = 0) := by
    rw [← hn]; omega
  have hrep : c.reposition.children
      = repositionEach c.layout_type
          (Geometry.mk 0 0
            (c.geometry.width / (c.children.filter (fun x => !x.remove_flag)).length)
            c.geometry.height)
          (Geometry.mk
            (c.geometry.width / (c.children.filter (fun x => !x.remove_flag)).length)
            (c.geometry.height / (c.children.filter (fun x => !x.remove_flag)).length)
            (c.geometry.width / (c.children.filter (fun x => !x.remove_flag)).length)
            (c.geometry.height / (c.children.filter (fun x => !x.remove_flag)).length))
          c.children := by
    rw [Container.reposition]
    rw [if_neg hne]
    simp
  rw [hrep, hlt, ← hn]
  have step := repositionEach_horizontal_geoms
    (Geometry.mk (c.geometry.width / n) (c.geometry.height / n)
      (c.geometry.width / n) (c.geometry.height / n))
    c.children
    (Geometry.mk 0 0 (c.geometry.width / n) c.geometry.height) rfl
  rw [step, ← hn]
  simp

/-! ### Claim C1 -/

/-- A `Horizontal` interior container whose own origin is `(5, 7)`, with one
live leaf child. -/
def c1ex : Container :=
  .mk none none [Container.new 1 10 .Horizontal (Geometry.new 0 0 0 0)]
    .Horizontal (Geometry.new 5 7 100 50) false false

/-- C1, counterexample: the claim says the first live child's `x` and `y`
equal the parent's `x` and `y`; on a `Horizontal` parent whose own origin is
`(5, 7)`, `reposition` puts the first live child at `(0, 0)`. -/
theorem C1_counterexample :
    ¬ (∀ (c : Container), c.layout_type = .Horizontal →
        1 ≤ (c.children.filter (fun x => !x.remove_flag)).length →
        ∀ g0, ((c.reposition.children.filter (fun x => !x.remove_flag)).map
            Container.geometry)[0]? = some g0 →
          g0.x = c.geometry.x ∧ g0.y = c.geometry.y) := by
  intro hclaim
  have hgeo : ((c1ex.reposition.children.filter (fun x => !x.remove_flag)).map
      Container.geometry)[0]? = some (Geometry.new 0 0 100 50) := by
    simp [c1ex, Container.new, Geometry.new, Container.reposition, repositionEach]
  have h := hclaim c1ex rfl (by simp [c1ex, Container.new]) (Geometry.new 0 0 100 50) hgeo
  simp [c1ex, Geometry.new] at h

/-- C1 (amended): under `Horizontal` layout with `n ≥ 1` live children,
`reposition` gives every live child width `parent.width / n` (integer
division) and the full parent height, and places the live children
left-to-right starting at the absolute origin `(0, 0)` — not at the parent's
own origin — the `k`-th live child at `x = k * (width / n)`, each advancing
by its own width.  Consequently the live children are pairwise
non-overlapping along the x-axis and their widths sum to the parent's width
minus the integer-division remainder (the remainder is left as slack; no
child absorbs it). -/
theorem C1_horizontal_partition (c : Container) (n : Nat)
    (hlt : c.layout_type = .Horizontal)
    (hn : n = (c.children.filter (fun x => !x.remove_flag)).length)
    (hpos : 1 ≤ n) :
    ((c.reposition.children.filter (fun x => !x.remove_flag)).map Container.geometry
        = (List.range n).map
            (fun k =>
              Geometry.mk (k * (c.geometry.width / n)) 0 (c.geometry.width / n)
                c.geometry.height))
    ∧ ((((c.reposition.children.filter (fun x => !x.remove_flag)).map
            Container.geometry).map Geometry.width).sum
        = c.geometry.width - c.geometry.width % n)
    ∧ (∀ (i j : Nat) (gi gj : Geometry), i < j →
        (((c.reposition.children.filter (fun x => !x.remove_flag)).map
            Container.geometry)[i]?) = some gi →
        (((c.reposition.children.filter (fun x => !x.remove_flag)).map
            Container.geometry)[j]?) = some gj →
        gi.x + gi.width ≤ gj.x ∧ gi.height = c.geometry.height
          ∧ gi.width = c.geometry.width / n) := by
  have hmain := reposition_children_horizontal c n hlt hn hpos
  refine ⟨hmain, ?_, ?_⟩
  · rw [hmain]
    rw [List.map_map]
    have hconst : (List.range n).map
        (Geometry.width ∘ fun k =>
          Geometry.mk (k * (c.geometry.width / n)) 0 (c.geometry.width / n)
            c.geometry.height)
        = (List.range n).map (fun _ => c.geometry.width / n) := by
      apply List.map_congr_left
      intro k _
      rfl
    rw [hconst, List.map_const', List.length_range, List.sum_replicate, smul_eq_mul]
    exact Nat.eq_sub_of_add_eq (Nat.div_add_mod c.geometry.width n)
  · intro i j gi gj hij hgi hgj
    rw [hmain] at hgi hgj
    rw [List.getElem?_map] at hgi hgj
    rcases Option.map_eq_some'.mp hgi with ⟨a, ha, hfa⟩
    rcases Option.map_eq_some'.mp hgj with ⟨b, hb, hfb⟩
    rcases List.getElem?_eq_some.mp ha with ⟨hia, hga⟩
    rcases List.getElem?_eq_some.mp hb with ⟨hjb, hgb⟩
    rw [List.getElem_range] at hga hgb
    subst hga hgb
    rw [← hfa, ← hfb]
    refine ⟨?_, rfl, rfl⟩
    show i * (c.geometry.width / n) + c.geometry.width / n ≤ j * (c.geometry.width / n)
    have : (i + 1) * (c.geometry.width / n) ≤ j * (c.geometry.width / n) :=
      Nat.mul_le_mul_right _ hij
    calc i * (c.geometry.width / n) + c.geometry.width / n
        = (i + 1) * (c.geometry.width / n) := by ring
      _ ≤ j * (c.geometry.width / n) := this

/-- C1 witness: the amended theorem applied to the concrete container
`c1ex` with `n = 1`. -/
theorem C1_horizontal_partition_witness :
    (c1ex.layout_type = .Horizontal
      ∧ 1 = (c1ex.children.filter (fun x => !x.remove_flag)).length ∧ 1 ≤ 1)
    ∧ ((c1ex.reposition.children.filter (fun x => !x.remove_flag)).map
          Container.geometry
        = (List.range 1).map
            (fun k =>
              Geometry.mk (k * (c1ex.geometry.width / 1)) 0 (c1ex.geometry.width / 1)
                c1ex.geometry.height)) :=
  ⟨⟨rfl, by simp [c1ex, Container.new], le_refl 1⟩,
    (C1_horizontal_partition c1ex 1 rfl (by simp [c1ex, Container.new])
      (le_refl 1)).1⟩

/-! ### Claims C2 and C3

`Container::reposition` builds its initial `next_geometry` as
`{x: 0, y: 0, width: width / n, height: self.height}` regardless of the
layout.  That initial value matches only `Horizontal`; under
`Floating`/`Tabbed` (where `get_next_geometry` passes the current geometry
through unchanged) every live child therefore receives
`(0, 0, width / n, parent.height)` rather than the parent's geometry, and
under `Vertical` the first live child keeps the full parent height and every
live child gets width `width / n` rather than the parent's width. -/

/-- Leaf with window 10. -/
def leafA : Container := Container.new 1 10 .Horizontal (Geometry.new 0 0 0 0)

/-- Leaf with window 20. -/
def leafB : Container := Container.new 2 20 .Horizontal (Geometry.new 0 0 0 0)

/-- A `Tabbed` interior container at `(0, 0, 100, 50)` with two live leaf
children. -/
def c2exTabbed : Container :=
  .mk none none [leafA, leafB] .Tabbed (Geometry.new 0 0 100 50) false false

/-- A `Floating` interior container at `(0, 0, 100, 50)` with two live leaf
children. -/
def c2exFloating : Container :=
  .mk none none [leafA, leafB] .Floating (Geometry.new 0 0 100 50) false false

/-- C2, failing input: on a `Tabbed` (resp. `Floating`) parent of geometry
`(0, 0, 100, 50)` with two live children, `reposition` gives both children
geometry `(0, 0, 50, 50)` — not the parent's geometry `(0, 0, 100, 50)` as
the claim states. -/
theorem C2_floating_tabbed_divide_width :
    (c2exTabbed.reposition.children.map Container.geometry
        = [Geometry.new 0 0 50 50, Geometry.new 0 0 50 50])
    ∧ (c2exFloating.reposition.children.map Container.geometry
        = [Geometry.new 0 0 50 50, Geometry.new 0 0 50 50])
    ∧ Geometry.new 0 0 50 50 ≠ c2exTabbed.geometry
    ∧ Geometry.new 0 0 50 50 ≠ c2exFloating.geometry := by
  refine ⟨?_, ?_, ?_, ?_⟩
  · simp [c2exTabbed, leafA, leafB, Container.new, Geometry.new,
      Container.reposition, repositionEach, LayoutType.get_next_geometry]
  · simp [c2exFloating, leafA, leafB, Container.new, Geometry.new,
      Container.reposition, repositionEach, LayoutType.get_next_geometry]
  · simp [c2exTabbed, Geometry.new]
  · simp [c2exFloating, Geometry.new]

/-- A `Vertical` interior container at `(0, 0, 100, 60)` with two live leaf
children. -/
def c3ex : Container :=
  .mk none none [leafA, leafB] .Vertical (Geometry.new 0 0 100 60) false false

/-- C3, failing input: on a `Vertical` parent of geometry `(0, 0, 100, 60)`
with two live children, `reposition` gives the children geometries
`(0, 0, 50, 60)` and `(0, 30, 50, 30)`: the widths are `width / n = 50`
rather than the parent's width `100`, the first child keeps the full parent
height `60` rather than `height / n = 30`, and the two children overlap on
the y-axis (`30 < 0 + 60`). -/
theorem C3_vertical_not_symmetric :
    (c3ex.reposition.children.map Container.geometry
        = [Geometry.new 0 0 50 60, Geometry.new 0 30 50 30])
    ∧ (50 ≠ c3ex.geometry.width)
    ∧ (60 ≠ c3ex.geometry.height / 2)
    ∧ (30 < 0 + 60) := by
  refine ⟨?_, ?_, ?_, ?_⟩
  · simp [c3ex, leafA, leafB, Container.new, Geometry.new,
      Container.reposition, repositionEach, LayoutType.get_next_geometry]
  · simp [c3ex, Geometry.new]
  · simp [c3ex, Geometry.new]
  · omega

/-! ### Claim C8: idempotence of `reposition` -/

theorem setGeometry_geometry_self (c : Container) : c.setGeometry c.geometry = c := by
  cases c; rfl

theorem setGeometry_of_geometry_eq (c : Container) (g : Geometry) (h : c.geometry = g) :
    c.setGeometry g = c := by
  subst h; exact setGeometry_geometry_self c

@[simp] theorem setChildren_setChildren (c : Container) (a b : List Container) :
    (c.setChildren a).setChildren b = c.setChildren b := by
  cases c; rfl

theorem setRepositioned_setRepositioned (c : Container) :
    c.setRepositioned.setRepositioned = c.setRepositioned := by
  cases c; rfl

theorem reposition_setRepositioned (c : Container) :
    c.setRepositioned.reposition = c.reposition.setRepositioned := by
  by_cases h : ((c.children.filter (fun x => !x.remove_flag)).length = 0)
  · have h' : ((c.setRepositioned.children.filter (fun x => !x.remove_flag)).length = 0) := by
      simpa using h
    rw [Container.reposition, if_pos h', Container.reposition, if_pos h]
  · have h' : ¬ ((c.setRepositioned.children.filter (fun x => !x.remove_flag)).length = 0) := by
      simpa using h
    rw [Container.reposition, if_neg h', Container.reposition, if_neg h]
    cases c
    simp

mutual

theorem reposition_reposition (c : Container) :
    c.reposition.reposition = c.reposition := by
  by_cases h : ((c.children.filter (fun x => !x.remove_flag)).length = 0)
  · have hc : c.reposition = c := by rw [Container.reposition, if_pos h]
    rw [hc]
    exact hc
  · have hrw : c.reposition = c.setChildren
        (repositionEach c.layout_type
          (Geometry.mk 0 0
            (c.geometry.width / (c.children.filter (fun x => !x.remove_flag)).length)
            c.geometry.height)
          (Geometry.mk
            (c.geometry.width / (c.children.filter (fun x => !x.remove_flag)).length)
            (c.geometry.height / (c.children.filter (fun x => !x.remove_flag)).length)
            (c.geometry.width / (c.children.filter (fun x => !x.remove_flag)).length)
            (c.geometry.height / (c.children.filter (fun x => !x.remove_flag)).length))
          c.children) := by
      rw [Container.reposition, if_neg h]
    have hflags : c.reposition.children.map Container.remove_flag
        = c.children.map Container.remove_flag := reposition_children_map_remove_flag c
    have hlen : ((c.reposition.children.filter (fun x => !x.remove_flag)).length
        = (c.children.filter (fun x => !x.remove_flag)).length) := by
      rw [← List.countP_eq_length_filter, ← List.countP_eq_length_filter]
      have e1 : c.reposition.children.countP (fun x => !x.remove_flag)
          = (c.reposition.children.map Container.remove_flag).countP (fun b => !b) := by
        rw [List.countP_map]; rfl
      have e2 : c.children.countP (fun x => !x.remove_flag)
          = (c.children.map Container.remove_flag).countP (fun b => !b) := by
        rw [List.countP_map]; rfl
      rw [e1, e2, hflags]
    have hlenL : (((c.reposition.children).filter (fun x => !x.remove_flag)).length
        = (c.children.filter (fun x => !x.remove_flag)).length) := hlen
    conv_lhs => rw [hrw]
    rw [Container.reposition]
    have hcond : ¬ ((((c.setChildren
        (repositionEach c.layout_type
          (Geometry.mk 0 0
            (c.geometry.width / (c.children.filter (fun x => !x.remove_flag)).length)
            c.geometry.height)
          (Geometry.mk
            (c.geometry.width / (c.children.filter (fun x => !x.remove_flag)).length)
            (c.geometry.height / (c.children.filter (fun x => !x.remove_flag)).length)
            (c.geometry.width / (c.children.filter (fun x => !x.remove_flag)).length)
            (c.geometry.height / (c.children.filter (fun x => !x.remove_flag)).length))
          c.children)).children).filter (fun x => !x.remove_flag)).length = 0) := by
    -- the live-children count is unchanged by the first pass
      rw [← hrw]
      rw [hlen]
      exact h
    rw [if_neg hcond]
    rw [← hrw]
    simp only [children_setChildren, layout_type_setChildren, geometry_setChildren]
    rw [reposition_geometry, reposition_layout_type, hlen]
    conv_lhs => rw [hrw]
    simp only [children_setChildren, setChildren_setChildren]
    rw [repositionEach_repositionEach]
    exact hrw.symm
termination_by 2 * c.csize + 1
decreasing_by
  have h2 := csizeList_children_lt c
  omega

theorem repositionEach_repositionEach (lt : LayoutType) (g u : Geometry)
    (l : List Container) :
    repositionEach lt g u (repositionEach lt g u l) = repositionEach lt g u l := by
  cases l with
  | nil => simp [repositionEach]
  | cons c rest =>
      by_cases hc : c.remove_flag
      · have hinner : repositionEach lt g u (c :: rest)
            = c :: repositionEach lt g u rest := by
          rw [repositionEach, if_pos hc]
        rw [hinner, repositionEach, if_pos hc,
          repositionEach_repositionEach lt g u rest]
      · have hinner : repositionEach lt g u (c :: rest)
            = ((c.setGeometry g).reposition).setRepositioned
                :: repositionEach lt (lt.get_next_geometry g u) u rest := by
          rw [repositionEach, if_neg hc]
        have hhead : (((c.setGeometry g).reposition).setRepositioned).remove_flag = false := by
          simp only [remove_flag_setRepositioned, reposition_remove_flag,
            remove_flag_setGeometry]
          simpa using hc
        rw [hinner, repositionEach, if_neg (by simp [hhead])]
        have hsg : (((c.setGeometry g).reposition).setRepositioned).setGeometry g
            = ((c.setGeometry g).reposition).setRepositioned :=
          setGeometry_of_geometry_eq _ _ (by simp [reposition_geometry])
        rw [hsg, reposition_setRepositioned,
          reposition_reposition (c.setGeometry g),
          setRepositioned_setRepositioned,
          repositionEach_repositionEach lt (lt.get_next_geometry g u) u rest]
termination_by 2 * Container.csize.csizeList l
decreasing_by
  all_goals simp
  all_goals omega

end

/-- C8: layout recomputation is idempotent — calling `reposition` a second
time with no structural change in between leaves the whole tree (in
particular every container's geometry) exactly as after the first call. -/
theorem C8_reposition_idempotent (c : Container) :
    c.reposition.reposition = c.reposition :=
  reposition_reposition c

/-! ### Claim C6: absent handles -/

theorem winCount_unfold (c : Container) (h : Nat) :
    c.winCount h
      = (if c.main_win_id == some h then 1 else 0) + winCountList c.children h := by
  rw [Container.winCount]

@[simp] theorem winCountList_nil (h : Nat) : winCountList [] h = 0 := by
  rw [winCountList]

theorem winCountList_cons_eq (c : Container) (l : List Container) (h : Nat) :
    winCountList (c :: l) h = c.winCount h + winCountList l h := by
  rw [winCountList]

theorem main_ne_of_winCount_zero (c : Container) (h : Nat) (hw : c.winCount h = 0) :
    (c.main_win_id == some h) = false ∧ winCountList c.children h = 0 := by
  rw [winCount_unfold] at hw
  by_cases hm : (c.main_win_id == some h)
  · rw [if_pos hm] at hw
    omega
  · rw [if_neg hm] at hw
    exact ⟨by simpa using hm, by omega⟩

theorem winCount_zero_of_mem (l : List Container) (h : Nat)
    (hl : winCountList l h = 0) (x : Container) (hx : x ∈ l) : x.winCount h = 0 := by
  induction l with
  | nil => cases hx
  | cons c rest ih =>
      rw [winCountList_cons_eq] at hl
      rcases List.mem_cons.mp hx with rfl | hx'
      · omega
      · exact ih (by omega) hx'

mutual

theorem find_parent_container_eq_none (c : Container) (h : Nat)
    (hw : winCountList c.children h = 0) :
    find_parent_container (fun x => x.main_win_id == some h) c = none := by
  rw [find_parent_container]
  exact findParentLoop_eq_none c.children 0 h hw
termination_by 2 * c.csize + 1
decreasing_by
  have h2 := csizeList_children_lt c
  omega

theorem findParentLoop_eq_none :
    ∀ (l : List Container) (i h : Nat), winCountList l h = 0 →
      findParentLoop (fun x => x.main_win_id == some h) l i = none
  | [], i, h, _ => by rw [findParentLoop]
  | child :: rest, i, h, hw => by
      rw [winCountList_cons_eq] at hw
      obtain ⟨hm, hcc⟩ := main_ne_of_winCount_zero child h (by omega)
      rw [findParentLoop, if_neg (by simp [hm])]
      rw [find_parent_container_eq_none child h hcc]
      exact findParentLoop_eq_none rest (i + 1) h (by omega)
termination_by l _ _ _ => 2 * Container.csize.csizeList l
decreasing_by
  all_goals simp
  all_goals omega

end

theorem remove_window_of_absent (c : Container) (h : Nat)
    (hw : winCountList c.children h = 0) :
    c.remove_window h = c := by
  have hidx : c.children.findIdx? (fun x => x.main_win_id == some h) = none := by
    rw [List.findIdx?_eq_none_iff]
    intro x hx
    exact (main_ne_of_winCount_zero x h (winCount_zero_of_mem c.children h hw x hx)).1
  unfold Container.remove_window
  rw [hidx]

theorem remove_container_of_absent (ws : Workspace) (h : Nat)
    (hw : winCountList ws.container.children h = 0) :
    ws.remove_container h = ws := by
  unfold Workspace.remove_container
  rw [find_parent_container_eq_none ws.container h hw]

theorem set_focused_of_absent (ws : Workspace) (h : Nat)
    (hw : winCountList ws.container.children h = 0) :
    ws.set_current_focused_container h = ws := by
  unfold Workspace.set_current_focused_container
  rw [find_parent_container_eq_none ws.container h hw]

/-- C6: when the handle `h` occurs nowhere in the workspace tree,
`remove_window` (`Workspace::remove_container`), `set_focus`
(`Workspace::set_current_focused_container`) and `mark_window_removed`
(`Container::remove_window`, on any node of the tree) are exact no-ops: the
tree, every flag and geometry, and the focus reference are unchanged. -/
theorem C6_absent_handle_noop (ws : Workspace) (h : Nat)
    (hw : ws.container.winCount h = 0) :
    ws.remove_container h = ws
    ∧ ws.set_current_focused_container h = ws
    ∧ (∀ c : Container, c.winCount h = 0 → c.remove_window h = c) := by
  have hcc := (main_ne_of_winCount_zero ws.container h hw).2
  refine ⟨remove_container_of_absent ws h hcc, set_focused_of_absent ws h hcc, ?_⟩
  intro c hc
  exact remove_window_of_absent c h (main_ne_of_winCount_zero c h hc).2

/-- Workspace with one window (handle 10) for the C6 witness. -/
def wsC6 : Workspace :=
  (Workspace.new 100 50).add_container
    (Container.new 1 10 .Horizontal (Geometry.new 0 0 0 0))

/-- C6 witness: handle 99 is absent from `wsC6`, and the three operations
leave it unchanged. -/
theorem C6_absent_handle_noop_witness :
    wsC6.container.winCount 99 = 0
    ∧ wsC6.remove_container 99 = wsC6
    ∧ wsC6.set_current_focused_container 99 = wsC6 := by
  have hw : wsC6.container.winCount 99 = 0 := by
    simp [wsC6, Workspace.new, Workspace.add_container, Container.new,
      Container.new_without_window, Geometry.new, Container.modifyAt,
      Container.resolve, Container.add_child, Container.reposition,
      repositionEach, Container.winCount, winCountList]
  have hall := C6_absent_handle_noop wsC6 99 hw
  exact ⟨hw, hall.1, hall.2.1⟩

/-! ### Claim C7: `mark_window_removed` flags one child, cascades one level -/

mutual

/-- Preorder flattening of every `remove_flag` in the tree; two trees with
the same shape have the same flag structure iff these lists agree. -/
def Container.flagsPre (c : Container) : List Bool :=
  c.remove_flag :: flagsPreList c.children
termination_by 2 * c.csize + 1
decreasing_by
  have h2 := csizeList_children_lt c
  omega

def flagsPreList : List Container → List Bool
  | [] => []
  | c :: rest => c.flagsPre ++ flagsPreList rest
termination_by l => 2 * Container.csize.csizeList l
decreasing_by
  all_goals simp
  all_goals omega

end

theorem flagsPre_unfold (c : Container) :
    c.flagsPre = c.remove_flag :: flagsPreList c.children := by
  rw [Container.flagsPre]

@[simp] theorem flagsPreList_nil : flagsPreList [] = [] := by rw [flagsPreList]

theorem flagsPreList_cons (c : Container) (rest : List Container) :
    flagsPreList (c :: rest) = c.flagsPre ++ flagsPreList rest := by
  rw [flagsPreList]

theorem flagsPreList_eq_join (l : List Container) :
    flagsPreList l = (l.map Container.flagsPre).flatten := by
  induction l with
  | nil => simp
  | cons c rest ih => rw [flagsPreList_cons, List.map_cons, List.flatten_cons, ih]

theorem flagsPre_setGeometry (c : Container) (g : Geometry) :
    (c.setGeometry g).flagsPre = c.flagsPre := by
  rw [flagsPre_unfold, flagsPre_unfold]
  simp

theorem flagsPre_setRepositioned (c : Container) :
    c.setRepositioned.flagsPre = c.flagsPre := by
  rw [flagsPre_unfold, flagsPre_unfold]
  simp

mutual

theorem flagsPre_reposition (c : Container) :
    c.reposition.flagsPre = c.flagsPre := by
  by_cases h : ((c.children.filter (fun x => !x.remove_flag)).length = 0)
  · rw [Container.reposition, if_pos h]
  · rw [Container.reposition, if_neg h]
    rw [flagsPre_unfold, flagsPre_unfold]
    simp only [remove_flag_setChildren, children_setChildren]
    rw [flagsPreList_eq_join, flagsPreList_eq_join]
    rw [map_flagsPre_repositionEach]
termination_by 2 * c.csize + 1
decreasing_by
  have h2 := csizeList_children_lt c
  omega

theorem map_flagsPre_repositionEach :
    ∀ (lt : LayoutType) (g u : Geometry) (l : List Container),
      (repositionEach lt g u l).map Container.flagsPre = l.map Container.flagsPre
  | lt, g, u, [] => by rw [repositionEach]
  | lt, g, u, c :: rest => by
      by_cases hc : c.remove_flag
      · rw [repositionEach, if_pos hc, List.map_cons, List.map_cons,
          map_flagsPre_repositionEach lt g u rest]
      · rw [repositionEach, if_neg hc, List.map_cons, List.map_cons,
          map_flagsPre_repositionEach lt (lt.get_next_geometry g u) u rest,
          flagsPre_setRepositioned, flagsPre_reposition (c.setGeometry g),
          flagsPre_setGeometry]
termination_by _ _ _ l => 2 * Container.csize.csizeList l
decreasing_by
  all_goals simp
  all_goals omega

end

theorem map_flagsPre_reposition_children (c : Container) :
    c.reposition.children.map Container.flagsPre
      = c.children.map Container.flagsPre := by
  by_cases h : ((c.children.filter (fun x => !x.remove_flag)).length = 0)
  · rw [Container.reposition, if_pos h]
  · rw [Container.reposition, if_neg h]
    simp only [children_setChildren]
    rw [map_flagsPre_repositionEach]

theorem map_flagsPre_markRemovedAt :
    ∀ (l : List Container) (j : Nat) (xj : Container), l[j]? = some xj →
      (markRemovedAt l j).map Container.flagsPre
        = (l.map Container.flagsPre).set j (true :: flagsPreList xj.children)
  | [], j, xj, hx => by simp at hx
  | c :: rest, 0, xj, hx => by
      have hc : c = xj := by simpa using hx
      subst hc
      rw [markRemovedAt]
      simp only [List.map_cons, List.set_cons_zero]
      rw [flagsPre_unfold]
      simp
  | c :: rest, j + 1, xj, hx => by
      rw [markRemovedAt]
      simp only [List.map_cons, List.set_cons_succ]
      rw [map_flagsPre_markRemovedAt rest j xj (by simpa using hx)]

theorem map_geometry_markRemovedAt :
    ∀ (l : List Container) (j : Nat),
      (markRemovedAt l j).map Container.geometry = l.map Container.geometry
  | [], _ => by rw [markRemovedAt]
  | c :: rest, 0 => by
      rw [markRemovedAt]
      simp
  | c :: rest, j + 1 => by
      rw [markRemovedAt]
      simp only [List.map_cons]
      rw [map_geometry_markRemovedAt rest j]

/-- The element a successful `findIdx?` points at satisfies the predicate. -/
theorem findIdx?_some_elem (l : List Container) (p : Container → Bool) (j : Nat)
    (hj : l.findIdx? p = some j) : ∃ xj, l[j]? = some xj ∧ p xj = true := by
  obtain ⟨hjl, hfi⟩ := List.findIdx?_eq_some_iff_findIdx_eq.mp hj
  cases hx : l[j]? with
  | none =>
      have hlen : l.length ≤ j := by
        by_contra hlt
        rw [List.getElem?_eq_getElem (by omega)] at hx
        cases hx
      omega
  | some xj =>
      refine ⟨xj, rfl, ?_⟩
      have hw : l[l.findIdx p]? = some xj := by rw [hfi]; exact hx
      exact List.findIdx_of_getElem?_eq_some hw

/-- C7: when a direct child of a node holds `h` (at the first matching index
`j`), `mark_window_removed h` (`Container::remove_window`) sets exactly that
child's `pending_removal` flag, leaving every other flag in the subtree
unchanged; if that child was the node's only child, the node itself is
flagged and nothing is repositioned (children geometries untouched); the
cascade stops at the node — with other children present the node's own flag
is unchanged and the node is repositioned. -/
theorem C7_mark_removed_one_level (c : Container) (h : Nat) (j : Nat)
    (hj : c.children.findIdx? (fun x => x.main_win_id == some h) = some j) :
    ∃ xj : Container, c.children[j]? = some xj ∧ xj.main_win_id = some h
      ∧ ((c.remove_window h).children.map Container.flagsPre
          = (c.children.map Container.flagsPre).set j (true :: flagsPreList xj.children))
      ∧ (c.children.length = 1 →
          (c.remove_window h).remove_flag = true
          ∧ (c.remove_window h).children.map Container.geometry
              = c.children.map Container.geometry)
      ∧ (c.children.length ≠ 1 →
          (c.remove_window h).remove_flag = c.remove_flag
          ∧ c.remove_window h = (c.setChildren (markRemovedAt c.children j)).reposition) := by
  obtain ⟨xj, hxj, hpxj⟩ := findIdx?_some_elem c.children _ j hj
  have hjlen : j < c.children.length := (List.getElem?_eq_some.mp hxj).1
  refine ⟨xj, hxj, by simpa using hpxj, ?_, ?_, ?_⟩
  · unfold Container.remove_window
    rw [hj]
    dsimp only
    by_cases hl : c.children.length - 1 = 0
    · rw [if_pos hl]
      simp only [children_mark_removed, children_setChildren]
      exact map_flagsPre_markRemovedAt c.children j xj hxj
    · rw [if_neg hl]
      have e1 : ((c.setChildren (markRemovedAt c.children j)).reposition).children.map
          Container.flagsPre
          = (markRemovedAt c.children j).map Container.flagsPre := by
        rw [map_flagsPre_reposition_children]
        simp
      rw [e1]
      exact map_flagsPre_markRemovedAt c.children j xj hxj
  · intro hone
    unfold Container.remove_window
    rw [hj]
    dsimp only
    rw [if_pos (by omega)]
    refine ⟨by simp, ?_⟩
    simp only [children_mark_removed, children_setChildren]
    exact map_geometry_markRemovedAt c.children j
  · intro hne
    unfold Container.remove_window
    rw [hj]
    dsimp only
    rw [if_neg (by omega)]
    refine ⟨?_, rfl⟩
    rw [reposition_remove_flag]
    simp

/-- A `Horizontal` node with two live leaf children (windows 10 and 20), for
the C7 witness. -/
def c7ex : Container :=
  .mk none none [leafA, leafB] .Horizontal (Geometry.new 0 0 100 50) false false

/-- C7 witness: the theorem applied to `c7ex` with `h = 10`, `j = 0`. -/
theorem C7_mark_removed_one_level_witness :
    (c7ex.children.findIdx? (fun x => x.main_win_id == some 10) = some 0)
    ∧ (∃ xj : Container, c7ex.children[0]? = some xj ∧ xj.main_win_id = some 10
        ∧ ((c7ex.remove_window 10).children.map Container.flagsPre
            = (c7ex.children.map Container.flagsPre).set 0 (true :: flagsPreList xj.children))
        ∧ (c7ex.children.length = 1 →
            (c7ex.remove_window 10).remove_flag = true
            ∧ (c7ex.remove_window 10).children.map Container.geometry
                = c7ex.children.map Container.geometry)
        ∧ (c7ex.children.length ≠ 1 →
            (c7ex.remove_window 10).remove_flag = c7ex.remove_flag
            ∧ c7ex.remove_window 10
                = (c7ex.setChildren (markRemovedAt c7ex.children 0)).reposition)) :=
  ⟨by simp [c7ex, leafA, leafB, Container.new],
    C7_mark_removed_one_level c7ex 10 0
      (by simp [c7ex, leafA, leafB, Container.new])⟩

/-! ### Claim C5: two-phase removal -/

theorem flatRemoved_all_flagged :
    ∀ (l : List Container), (∀ x ∈ l, x.remove_flag = true) → flatRemoved l = l
  | [], _ => by rw [flatRemoved]
  | c :: rest, hall => by
      rw [flatRemoved, if_pos (hall c (List.mem_cons_self c rest))]
      rw [flatRemoved_all_flagged rest (fun x hx => hall x (List.mem_cons_of_mem c hx))]
      rfl

/-- `Container::get_removed_children` only reports flagged *direct* children:
the recursive branch of the `flat_map` sits behind a filter that already
requires `remove_flag`, so it is dead code. -/
theorem get_removed_children_eq_filter (c : Container) :
    c.get_removed_children = c.children.filter (fun x => x.remove_flag) := by
  rw [Container.get_removed_children]
  exact flatRemoved_all_flagged _ (fun x hx => by
    have := List.of_mem_filter hx
    simpa using this)

theorem map_remove_flag_markRemovedAt :
    ∀ (l : List Container) (j : Nat),
      (markRemovedAt l j).map Container.remove_flag
        = (l.map Container.remove_flag).set j true
  | [], j => by rw [markRemovedAt]; simp
  | c :: rest, 0 => by rw [markRemovedAt]; simp
  | c :: rest, j + 1 => by
      rw [markRemovedAt]
      simp only [List.map_cons, List.set_cons_succ]
      rw [map_remove_flag_markRemovedAt rest j]

theorem map_main_win_id_markRemovedAt :
    ∀ (l : List Container) (j : Nat),
      (markRemovedAt l j).map Container.main_win_id = l.map Container.main_win_id
  | [], _ => by rw [markRemovedAt]
  | c :: rest, 0 => by rw [markRemovedAt]; simp
  | c :: rest, j + 1 => by
      rw [markRemovedAt]
      simp only [List.map_cons]
      rw [map_main_win_id_markRemovedAt rest j]

theorem winCount_mark_removed (c : Container) (h : Nat) :
    c.mark_removed.winCount h = c.winCount h := by
  rw [winCount_unfold, winCount_unfold]
  simp

theorem winCount_unmark_removed (c : Container) (h : Nat) :
    c.unmark_removed.winCount h = c.winCount h := by
  rw [winCount_unfold, winCount_unfold]
  simp

theorem winCount_setGeometry (c : Container) (g : Geometry) (h : Nat) :
    (c.setGeometry g).winCount h = c.winCount h := by
  rw [winCount_unfold, winCount_unfold]
  simp

theorem winCount_setRepositioned (c : Container) (h : Nat) :
    c.setRepositioned.winCount h = c.winCount h := by
  rw [winCount_unfold, winCount_unfold]
  simp

mutual

theorem winCount_reposition (c : Container) (h : Nat) :
    c.reposition.winCount h = c.winCount h := by
  by_cases hz : ((c.children.filter (fun x => !x.remove_flag)).length = 0)
  · rw [Container.reposition, if_pos hz]
  · rw [Container.reposition, if_neg hz]
    rw [winCount_unfold, winCount_unfold]
    simp only [main_win_id_setChildren, children_setChildren]
    rw [winCountList_repositionEach]
termination_by 2 * c.csize + 1
decreasing_by
  have h2 := csizeList_children_lt c
  omega

theorem winCountList_repositionEach :
    ∀ (lt : LayoutType) (g u : Geometry) (l : List Container) (h : Nat),
      winCountList (repositionEach lt g u l) h = winCountList l h
  | lt, g, u, [], h => by rw [repositionEach]
  | lt, g, u, c :: rest, h => by
      by_cases hc : c.remove_flag
      · rw [repositionEach, if_pos hc, winCountList_cons_eq, winCountList_cons_eq,
          winCountList_repositionEach lt g u rest h]
      · rw [repositionEach, if_neg hc, winCountList_cons_eq, winCountList_cons_eq,
          winCountList_repositionEach lt (lt.get_next_geometry g u) u rest h,
          winCount_setRepositioned, winCount_reposition (c.setGeometry g) h,
          winCount_setGeometry]
termination_by _ _ _ l _ => 2 * Container.csize.csizeList l
decreasing_by
  all_goals simp
  all_goals omega

end

theorem winCountList_markRemovedAt :
    ∀ (l : List Container) (j : Nat) (h : Nat),
      winCountList (markRemovedAt l j) h = winCountList l h
  | [], _, _ => by rw [markRemovedAt]
  | c :: rest, 0, h => by
      rw [markRemovedAt, winCountList_cons_eq, winCountList_cons_eq,
        winCount_mark_removed]
  | c :: rest, j + 1, h => by
      rw [markRemovedAt, winCountList_cons_eq, winCountList_cons_eq,
        winCountList_markRemovedAt rest j h]

/-- `remove_window` never changes which windows are in the tree. -/
theorem winCount_remove_window (c : Container) (h win : Nat) :
    (c.remove_window win).winCount h = c.winCount h := by
  unfold Container.remove_window
  cases hj : c.children.findIdx? (fun x => x.main_win_id == some win) with
  | none => rfl
  | some j =>
      dsimp only
      by_cases hl : c.children.length - 1 = 0
      · rw [if_pos hl, winCount_mark_removed, winCount_unfold, winCount_unfold]
        simp only [main_win_id_setChildren, children_setChildren]
        rw [winCountList_markRemovedAt]
      · rw [if_neg hl, winCount_reposition, winCount_unfold, winCount_unfold]
        simp only [main_win_id_setChildren, children_setChildren]
        rw [winCountList_markRemovedAt]

/-- Whatever `find_child_by_window_id` returns holds the searched handle. -/
theorem findEach_main_eq :
    ∀ (l : List Container) (h : Nat) (found : Container),
      findEach l h = some found → found.main_win_id = some h
  | [], h, found, hf => by rw [findEach] at hf; cases hf
  | child :: rest, h, found, hf => by
      rw [findEach] at hf
      cases hfc : child.find_child_by_window_id h with
      | some f2 =>
          rw [hfc] at hf
          dsimp only at hf
          by_cases hm : (f2.main_win_id == some h)
          · rw [if_pos hm] at hf
            cases hf
            simpa using hm
          · rw [if_neg hm] at hf
            exact findEach_main_eq rest h found hf
      | none =>
          rw [hfc] at hf
          exact findEach_main_eq rest h found hf

theorem find_main_eq (c : Container) (h : Nat) (found : Container)
    (hf : c.find_child_by_window_id h = some found) : found.main_win_id = some h := by
  rw [Container.find_child_by_window_id] at hf
  by_cases hm : (c.main_win_id == some h)
  · rw [if_pos hm] at hf
    cases hf
    simpa using hm
  · rw [if_neg hm] at hf
    exact findEach_main_eq c.children h found hf

mutual

theorem find_eq_none_of_winCount_zero (c : Container) (h : Nat)
    (hw : c.winCount h = 0) : c.find_child_by_window_id h = none := by
  obtain ⟨hm, hcc⟩ := main_ne_of_winCount_zero c h hw
  rw [Container.find_child_by_window_id, if_neg (by simp [hm])]
  exact findEach_eq_none_of_zero c.children h hcc
termination_by 2 * c.csize + 1
decreasing_by
  have h2 := csizeList_children_lt c
  omega

theorem findEach_eq_none_of_zero :
    ∀ (l : List Container) (h : Nat), winCountList l h = 0 → findEach l h = none
  | [], h, _ => by rw [findEach]
  | child :: rest, h, hw => by
      rw [winCountList_cons_eq] at hw
      rw [findEach, find_eq_none_of_winCount_zero child h (by omega)]
      exact findEach_eq_none_of_zero rest h (by omega)
termination_by l _ _ => 2 * Container.csize.csizeList l
decreasing_by
  all_goals simp
  all_goals omega

end

mutual

theorem find_isSome_of_winCount_pos (c : Container) (h : Nat)
    (hw : 0 < c.winCount h) : (c.find_child_by_window_id h).isSome = true := by
  rw [Container.find_child_by_window_id]
  by_cases hm : (c.main_win_id == some h)
  · rw [if_pos hm]
    rfl
  · rw [if_neg hm]
    rw [winCount_unfold, if_neg hm] at hw
    exact findEach_isSome_of_pos c.children h (by omega)
termination_by 2 * c.csize + 1
decreasing_by
  have h2 := csizeList_children_lt c
  omega

theorem findEach_isSome_of_pos :
    ∀ (l : List Container) (h : Nat), 0 < winCountList l h →
      (findEach l h).isSome = true
  | [], h, hw => by simp at hw
  | child :: rest, h, hw => by
      rw [winCountList_cons_eq] at hw
      rw [findEach]
      cases hfc : child.find_child_by_window_id h with
      | some f2 =>
          dsimp only
          rw [if_pos (by simp [find_main_eq child h f2 hfc])]
          rfl
      | none =>
          have hcz : child.winCount h = 0 := by
            by_contra hne
            have := find_isSome_of_winCount_pos child h (by omega)
            rw [hfc] at this
            cases this
          exact findEach_isSome_of_pos rest h (by omega)
termination_by l _ _ => 2 * Container.csize.csizeList l
decreasing_by
  all_goals simp
  all_goals omega

end

theorem winCount_pos_of_main (c : Container) (h : Nat)
    (hm : c.main_win_id = some h) : 0 < c.winCount h := by
  rw [winCount_unfold, if_pos (by simp [hm])]
  omega

theorem winCountList_pos_of_mem (l : List Container) (x : Container) (h : Nat)
    (hx : x ∈ l) (hm : x.main_win_id = some h) : 0 < winCountList l h := by
  induction l with
  | nil => cases hx
  | cons c rest ih =>
      rw [winCountList_cons_eq]
      rcases List.mem_cons.mp hx with rfl | hx'
      · have := winCount_pos_of_main x h hm
        omega
      · have := ih hx'
        omega

theorem clean_remove_flag (c : Container) :
    c.clean_removed_children.remove_flag = c.remove_flag := by
  rw [Container.clean_removed_children]
  by_cases hc : c.remove_flag
  · rw [if_pos hc]
  · rw [if_neg hc]
    simp

theorem clean_children_of_live (c : Container) (hc : c.remove_flag = false) :
    c.clean_removed_children.children
      = cleanEach (c.children.filter (fun x => !x.remove_flag)) := by
  rw [Container.clean_removed_children, if_neg (by simp [hc])]
  simp

theorem winCountList_filter_le (p : Container → Bool) (l : List Container) (h : Nat) :
    winCountList (l.filter p) h ≤ winCountList l h := by
  induction l with
  | nil => simp
  | cons c rest ih =>
      by_cases hp : p c
      · rw [List.filter_cons_of_pos hp, winCountList_cons_eq, winCountList_cons_eq]
        omega
      · rw [List.filter_cons_of_neg hp, winCountList_cons_eq]
        omega

mutual

theorem winCount_clean_le (c : Container) (h : Nat) :
    c.clean_removed_children.winCount h ≤ c.winCount h := by
  by_cases hc : c.remove_flag
  · rw [Container.clean_removed_children, if_pos hc]
  · rw [Container.clean_removed_children, if_neg hc]
    rw [winCount_unfold, winCount_unfold]
    simp only [main_win_id_setChildren, children_setChildren]
    have h1 := winCountList_cleanEach_le (c.children.filter (fun x => !x.remove_flag)) h
    have h2 := winCountList_filter_le (fun x => !x.remove_flag) c.children h
    omega
termination_by 2 * c.csize + 1
decreasing_by
  have h2 := csizeList_children_lt c
  have h3 := csizeList_filter_le (fun x => !x.remove_flag) c.children
  omega

theorem winCountList_cleanEach_le :
    ∀ (l : List Container) (h : Nat), winCountList (cleanEach l) h ≤ winCountList l h
  | [], h => by rw [cleanEach]
  | c :: rest, h => by
      rw [cleanEach, winCountList_cons_eq, winCountList_cons_eq]
      have h1 := winCount_clean_le c h
      have h2 := winCountList_cleanEach_le rest h
      omega
termination_by l _ => 2 * Container.csize.csizeList l
decreasing_by
  all_goals simp
  all_goals omega

end

theorem winCount_le_of_mem (l : List Container) (x : Container) (h : Nat)
    (hx : x ∈ l) : x.winCount h ≤ winCountList l h := by
  induction l with
  | nil => cases hx
  | cons c rest ih =>
      rw [winCountList_cons_eq]
      rcases List.mem_cons.mp hx with rfl | hx'
      · omega
      · have := ih hx'
        omega

theorem winCountList_filter_drop (l : List Container) (x : Container) (h : Nat)
    (hx : x ∈ l) (hpx : x.remove_flag = true) :
    winCountList (l.filter (fun y => !y.remove_flag)) h
      ≤ winCountList l h - x.winCount h := by
  induction l with
  | nil => cases hx
  | cons c rest ih =>
      rcases List.mem_cons.mp hx with rfl | hx'
      · rw [List.filter_cons_of_neg (by simp [hpx]), winCountList_cons_eq]
        have := winCountList_filter_le (fun y => !y.remove_flag) rest h
        omega
      · have hih : winCountList (rest.filter (fun y => !y.remove_flag)) h
            ≤ winCountList rest h - x.winCount h := ih hx'
        have hxr : x.winCount h ≤ winCountList rest h := winCount_le_of_mem rest x h hx'
        by_cases hp : c.remove_flag
        · rw [List.filter_cons_of_neg (by simp [hp]), winCountList_cons_eq]
          omega
        · rw [List.filter_cons_of_pos (by simp [hp]), winCountList_cons_eq,
            winCountList_cons_eq]
          omega

theorem map_remove_flag_cleanEach :
    ∀ (l : List Container),
      (cleanEach l).map Container.remove_flag = l.map Container.remove_flag
  | [] => by rw [cleanEach]
  | c :: rest => by
      rw [cleanEach]
      simp only [List.map_cons]
      rw [clean_remove_flag, map_remove_flag_cleanEach rest]

theorem cleanEach_eq_map :
    ∀ (l : List Container), cleanEach l = l.map Container.clean_removed_children
  | [] => by rw [cleanEach]; rfl
  | c :: rest => by
      rw [cleanEach]
      simp only [List.map_cons]
      rw [cleanEach_eq_map rest]

theorem clean_main_win_id (c : Container) :
    c.clean_removed_children.main_win_id = c.main_win_id := by
  rw [Container.clean_removed_children]
  by_cases hc : c.remove_flag
  · rw [if_pos hc]
  · rw [if_neg hc]
    simp

theorem remove_window_main_win_id (c : Container) (h : Nat) :
    (c.remove_window h).main_win_id = c.main_win_id := by
  unfold Container.remove_window
  cases hj : c.children.findIdx? (fun x => x.main_win_id == some h) with
  | none => rfl
  | some j =>
      dsimp only
      by_cases hl : c.children.length - 1 = 0
      · rw [if_pos hl]
        simp
      · rw [if_neg hl, reposition_main_win_id]
        simp

theorem remove_window_children_maps (c : Container) (h j : Nat)
    (hj : c.children.findIdx? (fun x => x.main_win_id == some h) = some j) :
    (c.remove_window h).children.map Container.main_win_id
        = c.children.map Container.main_win_id
    ∧ (c.remove_window h).children.map Container.remove_flag
        = (c.children.map Container.remove_flag).set j true := by
  unfold Container.remove_window
  rw [hj]
  dsimp only
  by_cases hl : c.children.length - 1 = 0
  · rw [if_pos hl]
    simp only [children_mark_removed, children_setChildren]
    exact ⟨map_main_win_id_markRemovedAt c.children j,
      map_remove_flag_markRemovedAt c.children j⟩
  · rw [if_neg hl]
    constructor
    · rw [reposition_children_map_main_win_id]
      simp only [children_setChildren]
      exact map_main_win_id_markRemovedAt c.children j
    · rw [reposition_children_map_remove_flag]
      simp only [children_setChildren]
      exact map_remove_flag_markRemovedAt c.children j

/-- C5 (amended): for a handle `h` held (uniquely) by a *direct child* of the
node on which the two-phase protocol runs, after `mark_window_removed h`
(`Container::remove_window`) the container for `h` appears in
`collect_removed()` (`get_removed_children`, which reports only
pending-removal direct children) and is still found by
`find_by_window_handle h`; after `detach_removed()` (unmark the root, then
`clean_removed_children`, as `Workspace::clean_removed_containers` does) the
container is absent from the tree, from `collect_removed()`, and from
`find_by_window_handle h`. -/
theorem C5_two_phase_direct_child (c : Container) (h j : Nat)
    (hroot : c.main_win_id ≠ some h)
    (hj : c.children.findIdx? (fun x => x.main_win_id == some h) = some j)
    (huniq : c.winCount h = 1) :
    (∃ x ∈ (c.remove_window h).get_removed_children, x.main_win_id = some h)
    ∧ (∃ found, (c.remove_window h).find_child_by_window_id h = some found
        ∧ found.main_win_id = some h)
    ∧ ((c.remove_window h).unmark_removed.clean_removed_children.winCount h = 0)
    ∧ ((c.remove_window h).unmark_removed.clean_removed_children.find_child_by_window_id h
        = none)
    ∧ ((c.remove_window h).unmark_removed.clean_removed_children.get_removed_children
        = []) := by
  obtain ⟨xj, hxj, hpxj⟩ := findIdx?_some_elem c.children _ j hj
  have hjlen : j < c.children.length := (List.getElem?_eq_some.mp hxj).1
  have hpj : xj.main_win_id = some h := by simpa using hpxj
  obtain ⟨hmm, hmf⟩ := remove_window_children_maps c h j hj
  have hmlen : (c.remove_window h).children.length = c.children.length := by
    have := congrArg List.length hmm
    simpa using this
  obtain ⟨y, hy⟩ : ∃ y, (c.remove_window h).children[j]? = some y :=
    ⟨_, List.getElem?_eq_getElem (by omega)⟩
  have hymain : y.main_win_id = some h := by
    have hcol := congrArg (fun l => l[j]?) hmm
    simp only [List.getElem?_map] at hcol
    rw [hy, hxj] at hcol
    simp only [Option.map_some'] at hcol
    rw [hpj] at hcol
    exact Option.some.inj hcol
  have hyflag : y.remove_flag = true := by
    have hcol := congrArg (fun l => l[j]?) hmf
    simp only [List.getElem?_map] at hcol
    rw [hy] at hcol
    rw [List.getElem?_set_self (by simpa using hjlen)] at hcol
    simp only [Option.map_some'] at hcol
    exact Option.some.inj hcol
  have hmain2 : (c.remove_window h).main_win_id = c.main_win_id :=
    remove_window_main_win_id c h
  have hwc : (c.remove_window h).winCount h = 1 := by
    rw [winCount_remove_window]; exact huniq
  have hwlist : winCountList (c.remove_window h).children h = 1 := by
    rw [winCount_unfold] at hwc
    rw [hmain2, if_neg (by simpa using hroot)] at hwc
    omega
  refine ⟨?_, ?_, ?_, ?_, ?_⟩
  · rw [get_removed_children_eq_filter]
    exact ⟨y, List.mem_filter.mpr ⟨List.getElem?_mem hy, by simp [hyflag]⟩, hymain⟩
  · have hs : ((c.remove_window h).find_child_by_window_id h).isSome = true :=
      find_isSome_of_winCount_pos _ h (by omega)
    obtain ⟨found, hfound⟩ := Option.isSome_iff_exists.mp hs
    exact ⟨found, hfound, find_main_eq _ h found hfound⟩
  · -- after detach: the handle count drops to zero
    have hdch : ((c.remove_window h).unmark_removed.clean_removed_children).children
        = cleanEach ((c.remove_window h).children.filter (fun x => !x.remove_flag)) := by
      rw [clean_children_of_live _ (by simp)]
      simp
    have hfd := winCountList_filter_drop (c.remove_window h).children y h
      (List.getElem?_mem hy) hyflag
    have hypos : 0 < y.winCount h := winCount_pos_of_main y h hymain
    have hce := winCountList_cleanEach_le
      ((c.remove_window h).children.filter (fun x => !x.remove_flag)) h
    rw [winCount_unfold, hdch]
    have hdm : ((c.remove_window h).unmark_removed.clean_removed_children).main_win_id
        = c.main_win_id := by
      rw [clean_main_win_id]
      simp [hmain2]
    rw [hdm, if_neg (by simpa using hroot)]
    omega
  · apply find_eq_none_of_winCount_zero
    -- same count argument as the previous goal
    have hdch : ((c.remove_window h).unmark_removed.clean_removed_children).children
        = cleanEach ((c.remove_window h).children.filter (fun x => !x.remove_flag)) := by
      rw [clean_children_of_live _ (by simp)]
      simp
    have hfd := winCountList_filter_drop (c.remove_window h).children y h
      (List.getElem?_mem hy) hyflag
    have hypos : 0 < y.winCount h := winCount_pos_of_main y h hymain
    have hce := winCountList_cleanEach_le
      ((c.remove_window h).children.filter (fun x => !x.remove_flag)) h
    rw [winCount_unfold, hdch]
    have hdm : ((c.remove_window h).unmark_removed.clean_removed_children).main_win_id
        = c.main_win_id := by
      rw [clean_main_win_id]
      simp [hmain2]
    rw [hdm, if_neg (by simpa using hroot)]
    omega
  · rw [get_removed_children_eq_filter]
    rw [List.filter_eq_nil_iff]
    intro a ha
    have hdch : ((c.remove_window h).unmark_removed.clean_removed_children).children
        = cleanEach ((c.remove_window h).children.filter (fun x => !x.remove_flag)) := by
      rw [clean_children_of_live _ (by simp)]
      simp
    rw [hdch, cleanEach_eq_map] at ha
    obtain ⟨z, hz, hza⟩ := List.mem_map.mp ha
    have hzflag : z.remove_flag = false := by
      have := List.of_mem_filter hz
      simpa using this
    rw [← hza]
    simp [clean_remove_flag, hzflag]

/-- Interior node (frame 9, no window) with two live leaf children, nested
under the root: exhibits the depth limitation of `get_removed_children`. -/
def c5inner : Container :=
  .mk (some 9) none [leafA, leafB] .Horizontal (Geometry.new 0 0 100 50) false false

/-- Workspace whose root has the interior node `c5inner` as its only child. -/
def c5ex : Workspace :=
  { current_focused_container := []
    container := .mk none none [c5inner] .Horizontal (Geometry.new 0 0 100 50) false false }

/-- C5, counterexample: after `mark_window_removed 10` (via
`Workspace::remove_container`) on a tree where window 10 sits at depth two,
the container for 10 is marked and still findable, but `collect_removed()`
(`get_removed_children`) returns the empty sequence — the marked container
does not appear in it, because the filter-then-`flat_map` structure never
recurses below an unflagged child. -/
theorem C5_counterexample :
    ((c5ex.remove_container 10).container.get_removed_children = [])
    ∧ (((c5ex.remove_container 10).container.resolve [0, 0]).map Container.remove_flag
        = some true)
    ∧ (((c5ex.remove_container 10).container.resolve [0, 0]).map Container.main_win_id
        = some (some 10))
    ∧ (((c5ex.remove_container 10).container.find_child_by_window_id 10).isSome
        = true) := by
  refine ⟨?_, ?_, ?_, ?_⟩ <;>
    simp [c5ex, c5inner, leafA, leafB, Container.new, Geometry.new,
      Workspace.remove_container, find_parent_container, findParentLoop,
      Container.get_next_focusing_container, Container.resolve, Container.modifyAt,
      Container.remove_window, markRemovedAt, Container.reposition, repositionEach,
      LayoutType.get_next_geometry, Container.get_removed_children, flatRemoved,
      Container.find_child_by_window_id, findEach]

/-- Flat tree (leaves directly under the node) for the C5 witness. -/
def c5w : Container :=
  .mk none none [leafA, leafB] .Horizontal (Geometry.new 0 0 100 50) false false

/-- C5 witness: the amended theorem applied to `c5w` with `h = 10`, `j = 0`. -/
theorem C5_two_phase_direct_child_witness :
    (c5w.main_win_id ≠ some 10
      ∧ c5w.children.findIdx? (fun x => x.main_win_id == some 10) = some 0
      ∧ c5w.winCount 10 = 1)
    ∧ (∃ x ∈ (c5w.remove_window 10).get_removed_children, x.main_win_id = some 10)
    ∧ ((c5w.remove_window 10).unmark_removed.clean_removed_children.winCount 10 = 0) := by
  have h1 : c5w.main_win_id ≠ some 10 := by simp [c5w]
  have h2 : c5w.children.findIdx? (fun x => x.main_win_id == some 10) = some 0 := by
    simp [c5w, leafA, leafB, Container.new]
  have h3 : c5w.winCount 10 = 1 := by
    simp [c5w, leafA, leafB, Container.new, Geometry.new, Container.winCount,
      winCountList]
  have hall := C5_two_phase_direct_child c5w 10 0 h1 h2 h3
  exact ⟨⟨h1, h2, h3⟩, hall.1, hall.2.2.1⟩

/-! ### Claim C10: `change_workspace` validates nothing -/

theorem lookupWs_map_const (l : List Nat) (W : Workspace) (k : Nat) :
    lookupWs (l.map (fun i => (i, W))) k = if k ∈ l then some W else none := by
  induction l with
  | nil => simp [lookupWs]
  | cons a rest ih =>
      simp only [List.map_cons, lookupWs]
      by_cases hak : a = k
      · subst hak
        rw [if_pos rfl, if_pos (List.mem_cons_self a rest)]
      · rw [if_neg hak, ih]
        by_cases hk : k ∈ rest
        · rw [if_pos hk, if_pos (List.mem_cons_of_mem a hk)]
        · rw [if_neg hk, if_neg (by
            intro hmem
            rcases List.mem_cons.mp hmem with h1 | h1
            · exact hak h1.symm
            · exact hk h1)]

theorem isSome_lookupWs_updateWs (f : Workspace → Workspace)
    (l : List (Nat × Workspace)) (i k : Nat) :
    (lookupWs (updateWs f l i) k).isSome = (lookupWs l k).isSome := by
  induction l with
  | nil => rfl
  | cons p rest ih =>
      obtain ⟨a, w⟩ := p
      simp only [updateWs, lookupWs]
      by_cases hai : a = i
      · rw [if_pos hai]
        simp only [lookupWs]
        by_cases hak : a = k
        · rw [if_pos hak, if_pos hak]
          rfl
        · rw [if_neg hak, if_neg hak]
      · rw [if_neg hai]
        simp only [lookupWs]
        by_cases hak : a = k
        · rw [if_pos hak, if_pos hak]
        · rw [if_neg hak, if_neg hak]
          exact ih

theorem modifyCurrent_preserves (wm : WmState) (f : Workspace → Workspace)
    (wm' : WmState) (hm : wm.modifyCurrent f = some wm') :
    (∀ k, (lookupWs wm'.workspaces k).isSome = (lookupWs wm.workspaces k).isSome)
    ∧ wm'.num_workspaces = wm.num_workspaces
    ∧ wm'.current_workspace = wm.current_workspace := by
  unfold WmState.modifyCurrent at hm
  cases hl : lookupWs wm.workspaces wm.current_workspace with
  | none => rw [hl] at hm; cases hm
  | some ws =>
      rw [hl] at hm
      cases hm
      exact ⟨fun k => isSome_lookupWs_updateWs f wm.workspaces wm.current_workspace k,
        rfl, rfl⟩

/-- C10: `change_workspace` accepts any index unvalidated and changes only the
active index — the workspace map (hence every tree) is untouched; and for any
state whose workspace keys are all `< num_workspaces` (as produced by
`WmState::new` and preserved by the delegated operations), after
`change_workspace i` with `i ≥ num_workspaces` every operation that looks up
the active workspace — `get_current_workspace`, `new_container`,
`remove_container`, `reposition`, `clean_removed_containers` — hits a missing
map entry and fails (`none` models the Rust `unwrap()` panic) instead of
being a no-op. -/
theorem C10_change_workspace_unvalidated :
    (∀ (wm : WmState) (i : Nat),
      (wm.change_workspace i).workspaces = wm.workspaces
      ∧ (wm.change_workspace i).current_workspace = i
      ∧ (wm.change_workspace i).num_workspaces = wm.num_workspaces)
    ∧ (∀ (n w h k : Nat),
        (lookupWs (WmState.new n w h).workspaces k).isSome → k < (WmState.new n w h).num_workspaces)
    ∧ (∀ (wm : WmState) (f : Workspace → Workspace) (wm' : WmState),
        wm.modifyCurrent f = some wm' →
          (∀ k, (lookupWs wm'.workspaces k).isSome → k < wm'.num_workspaces) =
            (∀ k, (lookupWs wm.workspaces k).isSome → k < wm.num_workspaces))
    ∧ (∀ (wm : WmState) (i : Nat),
        (∀ k, (lookupWs wm.workspaces k).isSome → k < wm.num_workspaces) →
        wm.num_workspaces ≤ i →
          (wm.change_workspace i).get_current_workspace = none
          ∧ (∀ a b, (wm.change_workspace i).new_container a b = none)
          ∧ (∀ w, (wm.change_workspace i).remove_container w = none)
          ∧ (wm.change_workspace i).reposition = none
          ∧ (wm.change_workspace i).clean_removed_containers = none) := by
  have hlooknone : ∀ (wm : WmState) (i : Nat),
      (∀ k, (lookupWs wm.workspaces k).isSome → k < wm.num_workspaces) →
      wm.num_workspaces ≤ i → lookupWs wm.workspaces i = none := by
    intro wm i hb hi
    cases hl : lookupWs wm.workspaces i with
    | none => rfl
    | some ws =>
        have := hb i (by rw [hl]; rfl)
        omega
  refine ⟨fun wm i => ⟨rfl, rfl, rfl⟩, ?_, ?_, ?_⟩
  · intro n w h k hk
    rw [WmState.new] at hk ⊢
    rw [lookupWs_map_const] at hk
    by_cases hkn : k ∈ List.range n
    · simpa using List.mem_range.mp hkn
    · rw [if_neg hkn] at hk
      cases hk
  · intro wm f wm' hm
    obtain ⟨hk, hn, _⟩ := modifyCurrent_preserves wm f wm' hm
    simp only [hk, hn]
  · intro wm i hb hi
    have hnone : lookupWs wm.workspaces i = none := hlooknone wm i hb hi
    have hget : (wm.change_workspace i).get_current_workspace = none := by
      unfold WmState.get_current_workspace WmState.change_workspace
      exact hnone
    have hmod : ∀ f, (wm.change_workspace i).modifyCurrent f = none := by
      intro f
      unfold WmState.modifyCurrent WmState.change_workspace
      simp only
      rw [hnone]
    exact ⟨hget, fun a b => hmod _, fun w => hmod _, hmod _, hmod _⟩

/-! ### Claim C9: the repositioned flag is never cleared, and which leaves
`collect_repositioned_leaves` reports -/

mutual

/-- Preorder flattening of every `is_repositioned` flag in the tree. -/
def Container.repsPre (c : Container) : List Bool :=
  c.is_repositioned :: repsPreList c.children
termination_by 2 * c.csize + 1
decreasing_by
  have h2 := csizeList_children_lt c
  omega

def repsPreList : List Container → List Bool
  | [] => []
  | c :: rest => c.repsPre ++ repsPreList rest
termination_by l => 2 * Container.csize.csizeList l
decreasing_by
  all_goals simp
  all_goals omega

end

theorem repsPre_unfold (c : Container) :
    c.repsPre = c.is_repositioned :: repsPreList c.children := by
  rw [Container.repsPre]

@[simp] theorem repsPreList_nil : repsPreList [] = [] := by rw [repsPreList]

theorem repsPreList_cons (c : Container) (rest : List Container) :
    repsPreList (c :: rest) = c.repsPre ++ repsPreList rest := by
  rw [repsPreList]

theorem repsPre_setGeometry (c : Container) (g : Geometry) :
    (c.setGeometry g).repsPre = c.repsPre := by
  rw [repsPre_unfold, repsPre_unfold]
  simp

/-- `a = true → b = true`: the flag may only go up. -/
def BoolLe (a b : Bool) : Prop := a = true → b = true

theorem forall₂_boolLe_refl (l : List Bool) : List.Forall₂ BoolLe l l := by
  induction l with
  | nil => exact List.Forall₂.nil
  | cons a rest ih => exact List.Forall₂.cons (fun hx => hx) ih

mutual

theorem repsPre_reposition_mono (c : Container) :
    List.Forall₂ BoolLe c.repsPre c.reposition.repsPre := by
  by_cases hz : ((c.children.filter (fun x => !x.remove_flag)).length = 0)
  · rw [Container.reposition, if_pos hz]
    exact forall₂_boolLe_refl _
  · rw [Container.reposition, if_neg hz]
    rw [repsPre_unfold, repsPre_unfold]
    simp only [is_repositioned_setChildren, children_setChildren]
    exact List.Forall₂.cons (fun hx => hx)
      (repsPreList_repositionEach_mono c.layout_type _ _ c.children)
termination_by 2 * c.csize + 1
decreasing_by
  have h2 := csizeList_children_lt c
  omega

theorem repsPreList_repositionEach_mono :
    ∀ (lt : LayoutType) (g u : Geometry) (l : List Container),
      List.Forall₂ BoolLe (repsPreList l) (repsPreList (repositionEach lt g u l))
  | lt, g, u, [] => by
      rw [repositionEach, repsPreList_nil]
      exact List.Forall₂.nil
  | lt, g, u, c :: rest => by
      by_cases hc : c.remove_flag
      · rw [repositionEach, if_pos hc, repsPreList_cons, repsPreList_cons]
        exact List.rel_append (forall₂_boolLe_refl _)
          (repsPreList_repositionEach_mono lt g u rest)
      · rw [repositionEach, if_neg hc, repsPreList_cons, repsPreList_cons]
        refine List.rel_append ?_ (repsPreList_repositionEach_mono lt
          (lt.get_next_geometry g u) u rest)
        have hnode := repsPre_reposition_mono (c.setGeometry g)
        rw [repsPre_setGeometry, repsPre_unfold] at hnode
        have hhead : (((c.setGeometry g).reposition).setRepositioned).repsPre
            = true :: repsPreList ((c.setGeometry g).reposition).children := by
          rw [repsPre_unfold]
          simp
        rw [hhead, repsPre_unfold]
        have hrepc : ((c.setGeometry g).reposition).repsPre
            = ((c.setGeometry g).reposition).is_repositioned
                :: repsPreList ((c.setGeometry g).reposition).children :=
          repsPre_unfold _
        rw [hrepc] at hnode
        exact List.Forall₂.cons (fun _ => rfl) (List.forall₂_cons.mp hnode).2
termination_by _ _ _ l => 2 * Container.csize.csizeList l
decreasing_by
  all_goals simp
  all_goals omega

end

mutual

/-- Preorder list of all nodes of the tree. -/
def Container.nodesPre (c : Container) : List Container :=
  c :: nodesPreList c.children
termination_by 2 * c.csize + 1
decreasing_by
  have h2 := csizeList_children_lt c
  omega

def nodesPreList : List Container → List Container
  | [] => []
  | c :: rest => c.nodesPre ++ nodesPreList rest
termination_by l => 2 * Container.csize.csizeList l
decreasing_by
  all_goals simp
  all_goals omega

end

/-- Equality of every field except the child list. -/
def sameFields (x y : Container) : Prop :=
  x.frame_win_id = y.frame_win_id ∧ x.main_win_id = y.main_win_id
    ∧ x.layout_type = y.layout_type ∧ x.geometry = y.geometry
    ∧ x.is_repositioned = y.is_repositioned ∧ x.remove_flag = y.remove_flag

theorem sameFields_refl (x : Container) : sameFields x x :=
  ⟨rfl, rfl, rfl, rfl, rfl, rfl⟩

theorem nodesPre_unfold (c : Container) :
    c.nodesPre = c :: nodesPreList c.children := by
  rw [Container.nodesPre]

@[simp] theorem nodesPreList_nil : nodesPreList [] = [] := by rw [nodesPreList]

theorem nodesPreList_cons (c : Container) (rest : List Container) :
    nodesPreList (c :: rest) = c.nodesPre ++ nodesPreList rest := by
  rw [nodesPreList]

theorem self_mem_nodesPre (c : Container) : c ∈ c.nodesPre := by
  rw [nodesPre_unfold]
  exact List.mem_cons_self c _

theorem mem_nodesPreList_iff (l : List Container) (x : Container) :
    x ∈ nodesPreList l ↔ ∃ z ∈ l, x ∈ z.nodesPre := by
  induction l with
  | nil => simp
  | cons c rest ih =>
      rw [nodesPreList_cons, List.mem_append, ih]
      constructor
      · rintro (hx | ⟨z, hz, hzx⟩)
        · exact ⟨c, List.mem_cons_self c rest, hx⟩
        · exact ⟨z, List.mem_cons_of_mem c hz, hzx⟩
      · rintro ⟨z, hz, hzx⟩
        rcases List.mem_cons.mp hz with rfl | hz'
        · exact Or.inl hzx
        · exact Or.inr ⟨z, hz', hzx⟩

theorem csize_le_of_mem (l : List Container) (z : Container) (hz : z ∈ l) :
    z.csize ≤ Container.csize.csizeList l := by
  induction l with
  | nil => cases hz
  | cons c rest ih =>
      rw [csizeList_cons]
      rcases List.mem_cons.mp hz with rfl | hz'
      · omega
      · have := ih hz'
        omega

/-- Physically detaching the pending-removal subtrees
(`clean_removed_children`) copies the surviving nodes unchanged: every node of
the result has all its fields (in particular `is_repositioned`) equal to a
node of the original tree. -/
theorem clean_preserves_nodes (c : Container) :
    ∀ x ∈ c.clean_removed_children.nodesPre, ∃ y ∈ c.nodesPre, sameFields x y := by
  intro x hx
  by_cases hc : c.remove_flag
  · rw [Container.clean_removed_children, if_pos hc] at hx
    exact ⟨x, hx, sameFields_refl x⟩
  · rw [Container.clean_removed_children, if_neg hc] at hx
    rw [nodesPre_unfold] at hx
    simp only [children_setChildren] at hx
    rcases List.mem_cons.mp hx with rfl | hx'
    · exact ⟨c, self_mem_nodesPre c, by
        refine ⟨?_, ?_, ?_, ?_, ?_, ?_⟩ <;> simp⟩
    · rw [cleanEach_eq_map] at hx'
      rw [mem_nodesPreList_iff] at hx'
      obtain ⟨z', hz', hxz'⟩ := hx'
      obtain ⟨z, hzmem, rfl⟩ := List.mem_map.mp hz'
      have hzc : z ∈ c.children := List.mem_of_mem_filter hzmem
      obtain ⟨y, hy, hxy⟩ := clean_preserves_nodes z x hxz'
      refine ⟨y, ?_, hxy⟩
      rw [nodesPre_unfold]
      exact List.mem_cons_of_mem c ((mem_nodesPreList_iff c.children y).mpr ⟨z, hzc, hy⟩)
termination_by 2 * c.csize + 1
decreasing_by
  have h1 := csize_le_of_mem c.children z hzc
  have h2 := csizeList_children_lt c
  omega

theorem resolve_nil (c : Container) : c.resolve [] = some c := by
  rw [Container.resolve]

theorem mem_flatRepositioned_of_leaf :
    ∀ (L : List Container) (ch : Container), ch ∈ L → ch.children = [] →
      ch ∈ flatRepositioned L
  | [], ch, h, _ => absurd h (List.not_mem_nil ch)
  | c :: rest, ch, h, hleaf => by
      rw [flatRepositioned]
      rcases List.mem_cons.mp h with rfl | h'
      · rw [if_pos (by simp [hleaf])]
        exact List.mem_append_left _ (List.mem_singleton_self ch)
      · exact List.mem_append_right _ (mem_flatRepositioned_of_leaf rest ch h' hleaf)

theorem mem_flatRepositioned_of_rec :
    ∀ (L : List Container) (ch x : Container), ch ∈ L → ¬ (ch.children = []) →
      x ∈ ch.get_repositioned_children → x ∈ flatRepositioned L
  | [], ch, x, h, _, _ => absurd h (List.not_mem_nil ch)
  | c :: rest, ch, x, h, hne, hx => by
      rw [flatRepositioned]
      rcases List.mem_cons.mp h with rfl | h'
      · rw [if_neg (by simpa using hne)]
        exact List.mem_append_left _ hx
      · exact List.mem_append_right _ (mem_flatRepositioned_of_rec rest ch x h' hne hx)

/-- The leaves `get_repositioned_children` reports: a leaf reached by a
non-empty path every prefix of which (the leaf and all its strict ancestors
below the collection root) is marked `is_repositioned` is in the collection.
This is the “re-reported” half of the two-phase contract; the chain condition
on the ancestors is necessary, see the counterexample. -/
theorem repositioned_chain_leaf_mem :
    ∀ (c : Container) (p : List Nat) (x : Container), p ≠ [] →
      c.resolve p = some x → x.children = [] →
      (∀ k, k < p.length →
        ∃ z, c.resolve (p.take (k + 1)) = some z ∧ z.is_repositioned = true) →
      x ∈ c.get_repositioned_children
  | c, [], x, hp, _, _, _ => absurd rfl hp
  | c, i :: p', x, _, hres, hleaf, hchain => by
      rw [Container.resolve] at hres
      cases hch : c.children[i]? with
      | none =>
          rw [hch] at hres
          dsimp only at hres
          cases hres
      | some ch =>
          rw [hch] at hres
          dsimp only at hres
          obtain ⟨z, hz1, hz2⟩ := hchain 0 (by simp)
          have htake : (i :: p').take 1 = [i] := rfl
          rw [htake, Container.resolve, hch] at hz1
          dsimp only at hz1
          rw [resolve_nil] at hz1
          obtain rfl : ch = z := Option.some.inj hz1
          have hchmem : ch ∈ c.children.filter (fun t => t.is_repositioned) :=
            List.mem_filter.mpr ⟨List.getElem?_mem hch, by simp [hz2]⟩
          rw [Container.get_repositioned_children]
          cases p' with
          | nil =>
              rw [resolve_nil] at hres
              obtain rfl : ch = x := Option.some.inj hres
              exact mem_flatRepositioned_of_leaf _ ch hchmem hleaf
          | cons j q =>
              have hne : ¬ (ch.children = []) := by
                rw [Container.resolve] at hres
                cases hcj : ch.children[j]? with
                | none =>
                    rw [hcj] at hres
                    dsimp only at hres
                    cases hres
                | some w =>
                    intro hemp
                    rw [hemp] at hcj
                    simp at hcj
              have hchain' : ∀ k, k < (j :: q).length →
                  ∃ z, ch.resolve ((j :: q).take (k + 1)) = some z
                    ∧ z.is_repositioned = true := by
                intro k hk
                obtain ⟨z, hz1, hz2⟩ := hchain (k + 1) (by simpa using Nat.succ_lt_succ hk)
                refine ⟨z, ?_, hz2⟩
                have ht : (i :: j :: q).take (k + 2) = i :: (j :: q).take (k + 1) := rfl
                rw [ht, Container.resolve, hch] at hz1
                dsimp only at hz1
                exact hz1
              exact mem_flatRepositioned_of_rec _ ch x hchmem hne
                (repositioned_chain_leaf_mem ch (j :: q) x (by simp) hres hleaf hchain')
termination_by c _ _ _ _ _ _ => 2 * c.csize + 1
decreasing_by
  have h1 := csize_le_of_mem c.children ch (List.getElem?_mem hch)
  have h2 := csizeList_children_lt c
  omega

/-- C9, counterexample: in the depth-two workspace `c5ex`,
`remove_container 10` repositions the interior node, so the surviving leaf
(window 20, at path `[0, 1]`) is a leaf marked `is_repositioned`; yet
`collect_repositioned_leaves` (`get_repositioned_children`) returns the empty
sequence, because the interior node itself is not marked and the collection
filters each level by `is_repositioned` before recursing. -/
theorem C9_counterexample :
    ((c5ex.remove_container 10).container.get_repositioned_children = [])
    ∧ (((c5ex.remove_container 10).container.resolve [0, 1]).map Container.is_repositioned
        = some true)
    ∧ (((c5ex.remove_container 10).container.resolve [0, 1]).map Container.children
        = some []) := by
  refine ⟨?_, ?_, ?_⟩ <;>
    simp [c5ex, c5inner, leafA, leafB, Container.new, Geometry.new,
      Workspace.remove_container, find_parent_container, findParentLoop,
      Container.get_next_focusing_container, Container.resolve, Container.modifyAt,
      Container.remove_window, markRemovedAt, Container.reposition, repositionEach,
      LayoutType.get_next_geometry, Container.get_repositioned_children,
      flatRepositioned]

/-- C9 (amended): no core operation clears a set `is_repositioned` flag —
`reposition` only raises flags (pointwise, over the preorder flag list),
`collect_repositioned_leaves` is a pure query, and `detach_removed`
(`clean_removed_children`) copies every surviving node's fields unchanged;
and `collect_repositioned_leaves` re-reports a repositioned leaf as long as
the leaf *and every strict ancestor below the collection root* is marked
`is_repositioned` — not unconditionally, see the counterexample. -/
theorem C9_repositioned_flag_monotone :
    (∀ c : Container, List.Forall₂ BoolLe c.repsPre c.reposition.repsPre)
    ∧ (∀ c : Container, ∀ x ∈ c.clean_removed_children.nodesPre,
        ∃ y ∈ c.nodesPre, sameFields x y)
    ∧ (∀ (c x : Container) (p : List Nat), p ≠ [] → c.resolve p = some x →
        x.children = [] →
        (∀ k, k < p.length →
          ∃ z, c.resolve (p.take (k + 1)) = some z ∧ z.is_repositioned = true) →
        x ∈ c.get_repositioned_children) :=
  ⟨repsPre_reposition_mono, clean_preserves_nodes,
    fun c x p hp hres hleaf hchain =>
      repositioned_chain_leaf_mem c p x hp hres hleaf hchain⟩

/-- Repositioned leaf (window 10) for the C9 witness. -/
def c9leaf : Container :=
  .mk (some 1) (some 10) [] .Horizontal (Geometry.new 0 0 100 50) true false

/-- Root holding `c9leaf`, for the C9 witness. -/
def c9w : Container :=
  .mk none none [c9leaf] .Horizontal (Geometry.new 0 0 100 50) false false

/-- C9 witness: the collection clause applied to the concrete tree `c9w`,
path `[0]`. -/
theorem C9_repositioned_flag_monotone_witness :
    (([0] : List Nat) ≠ [] ∧ c9w.resolve [0] = some c9leaf ∧ c9leaf.children = [])
    ∧ c9leaf ∈ c9w.get_repositioned_children := by
  have h1 : ([0] : List Nat) ≠ [] := by simp
  have h2 : c9w.resolve [0] = some c9leaf := by
    simp [c9w, c9leaf, Container.resolve]
  have h3 : c9leaf.children = [] := by simp [c9leaf]
  have hchain : ∀ k, k < ([0] : List Nat).length →
      ∃ z, c9w.resolve (([0] : List Nat).take (k + 1)) = some z
        ∧ z.is_repositioned = true := by
    intro k hk
    have hk0 : k = 0 := by simpa using hk
    subst hk0
    exact ⟨c9leaf, by simp [c9w, c9leaf, Container.resolve], by simp [c9leaf]⟩
  exact ⟨⟨h1, h2, h3⟩,
    C9_repositioned_flag_monotone.2.2 c9w c9leaf [0] h1 h2 h3 hchain⟩

/-! ### Claim C4: the focus reference across insert/remove sequences -/

/-- The focus pointer dereferences: it designates a node that exists in the
tree. -/
def FocusOk (ws : Workspace) : Prop :=
  (ws.container.resolve ws.current_focused_container).isSome = true

/-- The two structural operations quantified over by the claim.  `insert`
builds the container exactly as `WmState::new_container` does. -/
inductive WsOp where
  | insert (frame_win_id main_win_id : Nat)
  | remove (window_id : Nat)

def applyOp (ws : Workspace) : WsOp → Workspace
  | .insert f m =>
      ws.add_container (Container.new f m .Horizontal (Geometry.new 0 0 0 0))
  | .remove h => ws.remove_container h

def applyOps (ws : Workspace) (ops : List WsOp) : Workspace :=
  ops.foldl applyOp ws

theorem markRemovedAt_length :
    ∀ (l : List Container) (j : Nat), (markRemovedAt l j).length = l.length
  | [], _ => by rw [markRemovedAt]
  | c :: rest, 0 => by rw [markRemovedAt]; simp
  | c :: rest, j + 1 => by
      rw [markRemovedAt]
      simp only [List.length_cons]
      rw [markRemovedAt_length rest j]

theorem remove_window_children_length (c : Container) (h : Nat) :
    (c.remove_window h).children.length = c.children.length := by
  unfold Container.remove_window
  cases hj : c.children.findIdx? (fun x => x.main_win_id == some h) with
  | none => rfl
  | some j =>
      dsimp only
      by_cases hl : c.children.length - 1 = 0
      · rw [if_pos hl]
        simp only [children_mark_removed, children_setChildren]
        exact markRemovedAt_length c.children j
      · rw [if_neg hl, reposition_children_length]
        simp only [children_setChildren]
        exact markRemovedAt_length c.children j

theorem add_child_children_length (c x : Container) :
    (c.add_child x).children.length = c.children.length + 1 := by
  unfold Container.add_child
  rw [reposition_children_length]
  simp

theorem get_next_focusing_lt (c : Container) (h idx : Nat)
    (hx : c.get_next_focusing_container h = some idx) : idx < c.children.length := by
  unfold Container.get_next_focusing_container at hx
  cases hj : c.children.findIdx? (fun x => x.main_win_id == some h) with
  | none => rw [hj] at hx; cases hx
  | some wi =>
      rw [hj] at hx
      dsimp only at hx
      by_cases hl : c.children.length = 1
      · rw [if_pos hl] at hx
        cases hx
      · rw [if_neg hl] at hx
        cases hx
        obtain ⟨hwi, -⟩ := List.findIdx?_eq_some_iff_findIdx_eq.mp hj
        exact Nat.mod_lt _ (by omega)

theorem findParentLoop_shape (pred : Container → Bool) :
    ∀ (l : List Container) (i0 : Nat) (pp : List Nat),
      findParentLoop pred l i0 = some pp →
      pp = [] ∨ ∃ k, k < l.length ∧ pp = [i0 + k]
  | [], i0, pp, hp => by rw [findParentLoop] at hp; cases hp
  | child :: rest, i0, pp, hp => by
      rw [findParentLoop] at hp
      by_cases hpred : pred child
      · rw [if_pos hpred] at hp
        cases hp
        exact Or.inl rfl
      · rw [if_neg hpred] at hp
        cases hfc : find_parent_container pred child with
        | some q =>
            rw [hfc] at hp
            dsimp only at hp
            cases hp
            exact Or.inr ⟨0, by simp, by simp⟩
        | none =>
            rw [hfc] at hp
            dsimp only at hp
            rcases findParentLoop_shape pred rest (i0 + 1) pp hp with h0 | ⟨k, hk, hpp⟩
            · exact Or.inl h0
            · exact Or.inr ⟨k + 1, by simp only [List.length_cons]; omega,
                by rw [hpp]; congr 1; omega⟩

theorem find_parent_shape (pred : Container → Bool) (c : Container) (pp : List Nat)
    (hp : find_parent_container pred c = some pp) :
    pp = [] ∨ ∃ i, i < c.children.length ∧ pp = [i] := by
  rw [find_parent_container] at hp
  rcases findParentLoop_shape pred c.children 0 pp hp with h0 | ⟨k, hk, hpp⟩
  · exact Or.inl h0
  · exact Or.inr ⟨k, hk, by simpa using hpp⟩

theorem resolve_dropLast_isSome :
    ∀ (p : List Nat) (c : Container), (c.resolve p).isSome = true →
      (c.resolve p.dropLast).isSome = true
  | [], c, _ => by rw [List.dropLast_nil, resolve_nil]; rfl
  | [i], c, _ => by rw [List.dropLast_single, resolve_nil]; rfl
  | i :: j :: q, c, hres => by
      rw [Container.resolve] at hres
      rw [List.dropLast_cons₂, Container.resolve]
      cases hch : c.children[i]? with
      | none => rw [hch] at hres; cases hres
      | some ch =>
          rw [hch] at hres
          dsimp only at hres ⊢
          exact resolve_dropLast_isSome (j :: q) ch hres

theorem resolve_modifyAt_self :
    ∀ (q : List Nat) (c : Container) (f : Container → Container),
      (c.resolve q).isSome = true →
      (c.modifyAt q f).resolve q = (c.resolve q).map f
  | [], c, f, _ => by
      rw [Container.modifyAt, resolve_nil, resolve_nil, Option.map_some']
  | i :: rest, c, f, hres => by
      rw [Container.resolve] at hres
      cases hch : c.children[i]? with
      | none => rw [hch] at hres; cases hres
      | some ch =>
          rw [hch] at hres
          dsimp only at hres
          have hilt : i < c.children.length := by
            by_contra hge
            rw [List.getElem?_eq_none (by omega)] at hch
            cases hch
          rw [Container.modifyAt, hch]
          dsimp only
          rw [Container.resolve]
          simp only [children_setChildren]
          rw [List.getElem?_set_self (by omega)]
          dsimp only
          rw [resolve_modifyAt_self rest ch f hres]
          rw [Container.resolve, hch]

theorem resolve_append_one :
    ∀ (q : List Nat) (c : Container) (i : Nat),
      c.resolve (q ++ [i]) = (c.resolve q).bind (fun n => n.children[i]?)
  | [], c, i => by
      rw [List.nil_append, resolve_nil, Option.some_bind, Container.resolve]
      cases hch : c.children[i]? with
      | none => rfl
      | some ch => dsimp only; rw [resolve_nil]
  | j :: q, c, i => by
      rw [List.cons_append, Container.resolve, Container.resolve]
      cases hch : c.children[j]? with
      | none => rfl
      | some ch =>
          dsimp only
          exact resolve_append_one q ch i

theorem focusOk_add (ws : Workspace) (nc : Container) (hok : FocusOk ws) :
    FocusOk (ws.add_container nc) := by
  have hq : (ws.container.resolve
      (if ws.current_focused_container.isEmpty then []
       else ws.current_focused_container.dropLast)).isSome = true := by
    by_cases hf : ws.current_focused_container.isEmpty
    · rw [if_pos hf, resolve_nil]
      rfl
    · rw [if_neg hf]
      exact resolve_dropLast_isSome _ _ hok
  obtain ⟨parent, hparent⟩ := Option.isSome_iff_exists.mp hq
  unfold FocusOk Workspace.add_container
  dsimp only
  rw [hparent]
  dsimp only
  rw [resolve_append_one, resolve_modifyAt_self _ _ _ hq, hparent]
  dsimp only [Option.map_some', Option.some_bind]
  have hlen := add_child_children_length parent nc
  rw [List.getElem?_eq_getElem (by omega)]
  rfl

theorem focusOk_remove (ws : Workspace) (h : Nat) (hok : FocusOk ws) :
    FocusOk (ws.remove_container h) := by
  unfold Workspace.remove_container
  cases hfp : find_parent_container (fun c => c.main_win_id == some h) ws.container with
  | none => exact hok
  | some pp =>
      dsimp only
      cases hres : ws.container.resolve pp with
      | none => exact hok
      | some parent =>
          dsimp only
          unfold FocusOk
          dsimp only
          cases hnext : parent.get_next_focusing_container h with
          | some idx =>
              dsimp only
              have hidx : idx < parent.children.length :=
                get_next_focusing_lt parent h idx hnext
              rw [resolve_append_one, resolve_modifyAt_self pp _ _ (by rw [hres]; rfl),
                hres]
              dsimp only [Option.map_some', Option.some_bind]
              have hlen := remove_window_children_length parent h
              rw [List.getElem?_eq_getElem (by omega)]
              rfl
          | none =>
              dsimp only
              have hfoc : (if pp.isEmpty then [] else pp.dropLast) = ([] : List Nat) := by
                rcases find_parent_shape _ _ _ hfp with rfl | ⟨i, hi, rfl⟩
                · simp
                · simp
              rw [hfoc, resolve_nil]
              rfl

theorem focusOk_applyOp (ws : Workspace) (op : WsOp) (hok : FocusOk ws) :
    FocusOk (applyOp ws op) := by
  cases op with
  | insert f m => exact focusOk_add ws _ hok
  | remove h => exact focusOk_remove ws h hok

theorem focusOk_applyOps (ops : List WsOp) :
    ∀ ws : Workspace, FocusOk ws → FocusOk (applyOps ws ops) := by
  induction ops with
  | nil => exact fun ws hok => hok
  | cons op rest ih =>
      intro ws hok
      have h1 : applyOps ws (op :: rest) = applyOps (applyOp ws op) rest := by
        unfold applyOps
        rw [List.foldl_cons]
      rw [h1]
      exact ih _ (focusOk_applyOp ws op hok)

/-- The sequence insert w1, insert w2, remove w1, remove w2. -/
def c4seq : List WsOp := [.insert 1 10, .insert 2 20, .remove 10, .remove 20]

/-- C4, counterexample: after `insert 10; insert 20; remove 10; remove 20`
the focus reference points at the container of window 10, which is still
marked `pending_removal` (the cyclic-successor computation does not skip
pending-removal siblings). -/
theorem C4_counterexample :
    ((applyOps (Workspace.new 100 50) c4seq).container.resolve
        (applyOps (Workspace.new 100 50) c4seq).current_focused_container).map
      Container.remove_flag = some true := by
  simp [c4seq, applyOps, applyOp, Workspace.new, Workspace.add_container,
    Workspace.remove_container, Container.new, Container.new_without_window,
    Geometry.new, Container.modifyAt, Container.resolve, Container.add_child,
    Container.reposition, repositionEach, LayoutType.get_next_geometry,
    find_parent_container, findParentLoop, Container.get_next_focusing_container,
    Container.remove_window, markRemovedAt]

/-- C4 (amended): for every sequence of `insert_window`/`remove_window` calls
on a fresh workspace, after each call the focus reference points at a
container that is still present in the tree (the path dereferences).  The
focused container may however be marked `pending_removal` — see the
counterexample. -/
theorem C4_focus_points_into_tree (w h : Nat) (ops : List WsOp) :
    ((applyOps (Workspace.new w h) ops).container.resolve
        (applyOps (Workspace.new w h) ops).current_focused_container).isSome
      = true := by
  apply focusOk_applyOps
  unfold FocusOk Workspace.new
  dsimp only
  rw [resolve_nil]
  rfl

/-- C10 witness: the failure clause applied to `WmState.new 2 100 50` with the
out-of-range index 5. -/
theorem C10_change_workspace_unvalidated_witness :
    ((WmState.new 2 100 50).num_workspaces ≤ 5)
    ∧ ((WmState.new 2 100 50).change_workspace 5).get_current_workspace = none
    ∧ (((WmState.new 2 100 50).change_workspace 5).new_container 7 8 = none)
    ∧ (((WmState.new 2 100 50).change_workspace 5).reposition = none) := by
  have hb : ∀ k, (lookupWs (WmState.new 2 100 50).workspaces k).isSome
      → k < (WmState.new 2 100 50).num_workspaces :=
    C10_change_workspace_unvalidated.2.1 2 100 50
  have hle : (WmState.new 2 100 50).num_workspaces ≤ 5 := by
    simp [WmState.new]
  have hall := C10_change_workspace_unvalidated.2.2.2 (WmState.new 2 100 50) 5 hb hle
  exact ⟨hle, hall.1, hall.2.1 7 8, hall.2.2.2.1⟩

end LazyWm
